import Mathlib

/-!
Shallow embedding of the Rehearsal Audio Processor core
(`utils.py`, `musicAnalyzer.py`, `rehearsal_processor.py`).

Numeric values (dBFS loudness, tempos, feature vectors, scores) are
modelled as exact rationals; quantities that the source obtains through a
real square root (Pearson correlation) live in `ℝ`.  A dBFS sample that
Python represents as `-inf` is modelled as `none : Option ℚ`; a Python
exception escaping a function is modelled with `Except Unit`.
-/

namespace RehearsalProc

/-! ### Generic helpers -/

/-- `np.argmax` style first-maximum scan: fold that keeps the earliest
index attaining the running maximum (updates only on strictly greater). -/
def argmaxAux [LinearOrder α] : List α → ℕ → ℕ → α → ℕ
  | [], _, bi, _ => bi
  | x :: xs, i, bi, bv => if bv < x then argmaxAux xs (i + 1) i x else argmaxAux xs (i + 1) bi bv

/-- Index of the first maximal element of a list (0 on the empty list),
the convention of `np.argmax`. -/
def argmaxIdx [LinearOrder α] : List α → ℕ
  | [] => 0
  | x :: xs => argmaxAux xs 1 0 x

/-- Python 3 `round` to an integer: round half to even. -/
def pyRound (q : ℚ) : ℤ :=
  let f := ⌊q⌋
  let r := q - f
  if r < 1/2 then f
  else if 1/2 < r then f + 1
  else if f % 2 = 0 then f else f + 1

/-- Python `f"{n:02d}"` for a nonnegative integer. -/
def pad2 (n : ℕ) : String :=
  if n < 10 then "0" ++ toString n else toString n

/-! ### `utils.py`, `recommend_silence_threshold` (lines 57-78)

The input sequence of loudness values: `some q` is a finite dBFS value,
`none` is the non-finite value (`-inf`) that `pydub` returns for a fully
silent chunk.  The filter `dbfs_values[dbfs_values > -np.inf]` keeps
exactly the finite values. -/

/-- Left endpoint of the `np.histogram` range: the data minimum, shifted
by 1/2 when all data points are equal (numpy widens a degenerate range). -/
def histLo : List ℚ → ℚ
  | [] => 0
  | v :: rest =>
    let mn := rest.foldl min v
    let mx := rest.foldl max v
    if mn = mx then mn - 1/2 else mn

/-- Right endpoint of the `np.histogram` range. -/
def histHi : List ℚ → ℚ
  | [] => 0
  | v :: rest =>
    let mn := rest.foldl min v
    let mx := rest.foldl max v
    if mn = mx then mx + 1/2 else mx

/-- Width of one of the 50 equal histogram bins. -/
def histW (data : List ℚ) : ℚ := (histHi data - histLo data) / 50

/-- Histogram bin index of a value: `np.histogram` assigns value `v` to
bin `⌊(v - lo) / w⌋`, with the final bin closed on the right. -/
def binIndex (lo w v : ℚ) : ℕ := min (⌊(v - lo) / w⌋.toNat) 49

/-- The 50 bin counts of `np.histogram(dbfs_values, bins=50)`. -/
def histCounts (data : List ℚ) : List ℕ :=
  (List.range 50).map fun b =>
    (data.filter fun u => binIndex (histLo data) (histW data) u = b).length

/-- `utils.recommend_silence_threshold` on an ndarray of dBFS values
(lines 69-78): filter the finite values, fall back to `-40` when none
remain, otherwise return `int(round(peak_bin - 5))` where `peak_bin` is
the left edge of the first highest-count bin. -/
def recommendSilenceThreshold (vals : List (Option ℚ)) : ℤ :=
  let data := vals.filterMap id
  if data = [] then -40
  else pyRound (histLo data + (argmaxIdx (histCounts data) : ℚ) * histW data - 5)

/-! ### `utils.py`, the `AudioSegment` sampling branch (lines 59-67)

`for i in range(0, len(audio), 100): chunk = audio[i:i+100]` followed by
`if len(chunk) > 0: samples.append(chunk.dBFS)`.  A window is recorded by
its start offset and its true length `min 100 (lenMs - i)`. -/

/-- The chunk start offsets `range(0, lenMs, 100)`. -/
def sampleStarts (lenMs : ℕ) : List ℕ :=
  (List.range ((lenMs + 99) / 100)).map (· * 100)

/-- The `(start, length)` windows whose dBFS the loop samples. -/
def sampleWindows (lenMs : ℕ) : List (ℕ × ℕ) :=
  (sampleStarts lenMs).filterMap fun i =>
    let clen := min 100 (lenMs - i)
    if 0 < clen then some (i, clen) else none

/-- The sampled loudness sequence, given the dBFS of each chunk as a
function of its start and length (`none` models `-inf`). -/
def sampleDbfs (dbfs : ℕ → ℕ → Option ℚ) (lenMs : ℕ) : List (Option ℚ) :=
  (sampleWindows lenMs).map fun w => dbfs w.1 w.2

/-- `recommend_silence_threshold` on an `AudioSegment` of `lenMs`
milliseconds: sample windows, then run the histogram analysis. -/
def recommendSilenceThresholdAudio (dbfs : ℕ → ℕ → Option ℚ) (lenMs : ℕ) : ℤ :=
  recommendSilenceThreshold (sampleDbfs dbfs lenMs)

/-! ### Timestamps -/

/-- `MusicAnalyzer._ms_to_timestamp` (lines 325-330). -/
def msToTimestamp (ms : ℕ) : String :=
  let seconds := ms / 1000
  let minutes := seconds / 60
  let seconds2 := seconds % 60
  pad2 minutes ++ ":" ++ pad2 seconds2

/-- The inline timestamp of `RehearsalProcessor.analyze_segments`
(line 65): `f"{start_ms//60000:02d}:{(start_ms//1000)%60:02d}"`. -/
def segmentTimestamp (startMs : ℕ) : String :=
  pad2 (startMs / 60000) ++ ":" ++ pad2 (startMs / 1000 % 60)

/-! ### `musicAnalyzer.py`: detections and the fingerprint data model -/

/-- One detection dict as produced by the strategies (title, artist,
confidence, method). -/
structure Detection where
  title : String
  artist : String
  confidence : ℝ
  method : String

/-- The parsed `track` object of a successful Shazam response:
`track.get('title', 'Unknown')` and `track.get('subtitle', 'Unknown')`
read these two optional fields. -/
structure ShazamTrack where
  title : Option String
  subtitle : Option String

/-- `MusicAnalyzer._shazam_detect` / `_async_shazam_detect`
(lines 106-146): the whole call is wrapped in try/except returning `[]`,
and a response without a `track` yields `[]`; both are modelled by
`none`.  A parsed track yields one detection with fixed confidence 0.9. -/
noncomputable def shazamDetect (track : Option ShazamTrack) : List Detection :=
  match track with
  | none => []
  | some t =>
    [{ title := t.title.getD "Unknown", artist := t.subtitle.getD "Unknown",
       confidence := 0.9, method := "shazam" }]

/-- Python `x or 'Unknown'` on an optional string: `None` and the empty
string are both falsy and replaced. -/
def orUnknown (s : Option String) : String :=
  match s with
  | none => "Unknown"
  | some t => if t = "" then "Unknown" else t

/-- One `(score, recording_id, title, artist)` row of `acoustid.match`;
the recording id is unused by the code. -/
structure AcoustidRow where
  score : ℚ
  title : Option String
  artist : Option String

/-- `MusicAnalyzer._acoustid_detect` (lines 148-173): keep the rows whose
score reaches `confidence_threshold = 0.5` (line 32).  An exception is
modelled by offering the empty row list. -/
noncomputable def acoustidDetect (rows : List AcoustidRow) : List Detection :=
  (rows.filter fun row => (0.5 : ℚ) ≤ row.score).map fun row =>
    { title := orUnknown row.title, artist := orUnknown row.artist,
      confidence := (row.score : ℝ), method := "acoustid" }

/-- The features `_tempo_detect` extracts with librosa before its
decision logic (lines 184-193): the scalar tempo, the mean chroma vector,
and the top-3 dominant note indices from `argsort` (kept as an input
since numpy argsort tie order is unspecified). -/
structure TempoFeatures where
  tempoVal : ℚ
  chromaMean : List ℚ
  dominantNotes : List ℕ

/-- `key_profiles` (line 196): the twelve pitch-class names, natural notes
interleaved with their sharps. -/
def keyProfiles : List String :=
  ["C", "C#", "D", "D#", "E"] ++ "F" :: ["F#", "G", "G#"] ++ ["A", "A#", "B"]

/-- `key_profiles[chroma_mean.argmax()]` (line 197). -/
def estimatedKey (f : TempoFeatures) : String :=
  keyProfiles.getD (argmaxIdx f.chromaMean) ""

/-- The signature string of line 202 built from key, truncated tempo and
dominant notes. -/
def tempoSignature (f : TempoFeatures) : String :=
  estimatedKey f ++ "_" ++ toString ⌊f.tempoVal⌋ ++ "_"
    ++ String.intercalate "-" (f.dominantNotes.map toString)

/-- The decision logic of `MusicAnalyzer._tempo_detect` (lines 199-210):
accept only a tempo inside `[60, 180]`, confidence
`min(0.7, tempo_val / 120)`. -/
noncomputable def tempoDetectCore (f : TempoFeatures) : List Detection :=
  if 60 ≤ f.tempoVal ∧ f.tempoVal ≤ 180 then
    [{ title := "Song_" ++ tempoSignature f,
       artist := "Key_" ++ estimatedKey f,
       confidence := ((min 0.7 (f.tempoVal / 120) : ℚ) : ℝ),
       method := "audio_signature" }]
  else []

/-- `_tempo_detect` with its try/except: a librosa failure (modelled by
`none`) returns `[]` (lines 218-220). -/
noncomputable def tempoDetect (feats : Option TempoFeatures) : List Detection :=
  match feats with
  | none => []
  | some f => tempoDetectCore f

/-- An audio signature as returned by `_extract_signature`
(lines 248-277): tempo, mean chroma vector, mean MFCC vector. -/
structure Signature where
  tempo : ℚ
  chroma : List ℚ
  mfcc : List ℚ

/-! ### `MusicAnalyzer._reference_match` (lines 279-318) -/

/-- numpy mean of a vector. -/
def qmean (x : List ℚ) : ℚ := x.sum / x.length

/-- Deviation of the i-th component from the mean (0-padded reads). -/
def dev (x : List ℚ) (i : ℕ) : ℚ := x.getD i 0 - qmean x

/-- Centered cross sum of two vectors over the length of the first. -/
def covSum (x y : List ℚ) : ℚ := ∑ i ∈ Finset.range x.length, dev x i * dev y i

/-- Centered square sum of a vector. -/
def varSum (x : List ℚ) : ℚ := ∑ i ∈ Finset.range x.length, dev x i ^ 2

/-- `np.corrcoef(x, y)[0, 1]`: the Pearson correlation
`covSum / sqrt (varSum x * varSum y)`.  A constant vector has zero
variance; numpy then produces NaN, modelled as `none`. -/
noncomputable def pearson (x y : List ℚ) : Option ℝ :=
  if varSum x = 0 ∨ varSum y = 0 then none
  else some ((covSum x y : ℝ) / Real.sqrt ((varSum x : ℝ) * (varSum y : ℝ)))

/-- `tempo_score = max(0, 1 - tempo_diff)` with
`tempo_diff = |tq - tr| / max(tq, tr)` (lines 290-291).  The division is
modelled separately: see `combinedScore` for the zero-divisor case. -/
def tempoScore (tq tr : ℚ) : ℚ := max 0 (1 - |tq - tr| / max tq tr)

/-- Lines 295-300: `max(0, corr) if not np.isnan(corr) else 0`. -/
noncomputable def clampCorr (c : Option ℝ) : ℝ :=
  match c with
  | none => 0
  | some v => max 0 v

/-- `total_score = tempo_score*0.3 + chroma_score*0.5 + mfcc_score*0.2`
(line 303); `none` models the `ZeroDivisionError` that line 290 raises
when `max(tq, tr) = 0`. -/
noncomputable def combinedScore (q r : Signature) : Option ℝ :=
  if max q.tempo r.tempo = 0 then none
  else some ((tempoScore q.tempo r.tempo : ℝ) * 0.3
    + clampCorr (pearson q.chroma r.chroma) * 0.5
    + clampCorr (pearson q.mfcc r.mfcc) * 0.2)

/-- The best-match scan of lines 285-307: running `(best_match,
best_score)` state, updated when `total_score > best_score and
total_score > 0.6`; an exception aborts the whole scan. -/
noncomputable def refLoop (q : Signature) :
    List (String × Signature) → Option String → ℝ → Except Unit (Option String × ℝ)
  | [], best, bestScore => .ok (best, bestScore)
  | (name, r) :: rest, best, bestScore =>
    match combinedScore q r with
    | none => .error ()
    | some s =>
      if bestScore < s ∧ (0.6 : ℝ) < s then refLoop q rest (some name) s
      else refLoop q rest best bestScore

/-- `_reference_match` from an extracted query signature: lines 285-318.
`if best_match:` is Python truthiness, false for `None` and for the empty
string. -/
noncomputable def referenceMatch (q : Signature) (db : List (String × Signature)) :
    Except Unit (List Detection) :=
  match refLoop q db none 0 with
  | .error e => .error e
  | .ok (bestMatch, bestScore) =>
    match bestMatch with
    | none => .ok []
    | some name =>
      if name = "" then .ok []
      else .ok [{ title := name, artist := "Cover",
                  confidence := bestScore, method := "reference_match" }]

/-- `_reference_match` including lines 281-283: a failed signature
extraction (`none`) returns `[]`. -/
noncomputable def referenceMatchFrom (qSig : Option Signature)
    (db : List (String × Signature)) : Except Unit (List Detection) :=
  match qSig with
  | none => .ok []
  | some q => referenceMatch q db

/-! ### `MusicAnalyzer._detect_song_segment` (lines 84-104)

The per-segment environment collects the module availability flags and
the outcome of each external call on this segment. -/

structure Env where
  shazamAvailable : Bool
  acoustidAvailable : Bool
  librosaAvailable : Bool
  shazamTrack : Option ShazamTrack
  acoustidRows : List AcoustidRow
  refSigs : List (String × Signature)
  querySig : Option Signature
  tempoFeatures : Option TempoFeatures

/-- The ordered strategy cascade with short-circuit guards
`if not detections and ...`; the reference step can raise. -/
noncomputable def detectSongSegment (env : Env) : Except Unit (List Detection) :=
  let d1 : List Detection :=
    if env.shazamAvailable then shazamDetect env.shazamTrack else []
  let d2 : List Detection :=
    if d1.isEmpty && env.acoustidAvailable then d1 ++ acoustidDetect env.acoustidRows else d1
  if d2.isEmpty && !env.refSigs.isEmpty then
    match referenceMatchFrom env.querySig env.refSigs with
    | .error e => .error e
    | .ok dr =>
      let d3 := d2 ++ dr
      if d3.isEmpty && env.librosaAvailable then .ok (d3 ++ tempoDetect env.tempoFeatures)
      else .ok d3
  else
    if d2.isEmpty && env.librosaAvailable then .ok (d2 ++ tempoDetect env.tempoFeatures)
    else .ok d2

/-- The four strategies, in source order. -/
inductive Strat where
  | shazam | acoustid | reference | tempo
deriving DecidableEq

/-- Position of a strategy in the cascade. -/
def Strat.priority : Strat → ℕ
  | shazam => 0
  | acoustid => 1
  | reference => 2
  | tempo => 3

/-- `_detect_song_segment` instrumented with the list of strategies it
actually invokes, in invocation order. -/
noncomputable def detectWithTrace (env : Env) :
    Except Unit (List Detection) × List Strat :=
  let d1 : List Detection :=
    if env.shazamAvailable then shazamDetect env.shazamTrack else []
  let t1 : List Strat := if env.shazamAvailable then [.shazam] else []
  let d2 : List Detection :=
    if d1.isEmpty && env.acoustidAvailable then d1 ++ acoustidDetect env.acoustidRows else d1
  let t2 : List Strat :=
    t1 ++ (if d1.isEmpty && env.acoustidAvailable then [.acoustid] else [])
  if d2.isEmpty && !env.refSigs.isEmpty then
    match referenceMatchFrom env.querySig env.refSigs with
    | .error e => (.error e, t2 ++ [.reference])
    | .ok dr =>
      let d3 := d2 ++ dr
      if d3.isEmpty && env.librosaAvailable then
        (.ok (d3 ++ tempoDetect env.tempoFeatures), t2 ++ [.reference, .tempo])
      else (.ok d3, t2 ++ [.reference])
  else
    if d2.isEmpty && env.librosaAvailable then
      (.ok (d2 ++ tempoDetect env.tempoFeatures), t2 ++ [.tempo])
    else (.ok d2, t2)

/-! ### `RehearsalProcessor.analyze_segments` (lines 53-96) -/

/-- One output row of `analyze_segments`. -/
structure Row where
  file : String
  segment : ℕ
  startTime : String
  durationS : ℕ
  song : String
  artist : String
  confidence : ℝ
  method : String

/-- One silence-bounded segment handed to `analyze_segments`: its time
range and the per-segment detection environment. -/
structure Seg where
  startMs : ℕ
  endMs : ℕ
  env : Env

/-- Rows appended for one analyzed segment (lines 72-94): one row per
detection, or the single `undetected` sentinel row. -/
def rowsFor (file : String) (idx : ℕ) (ts : String) (dur : ℕ)
    (ds : List Detection) : List Row :=
  match ds with
  | [] => [{ file := file, segment := idx + 1, startTime := ts, durationS := dur,
             song := "undetected", artist := "", confidence := 0, method := "none" }]
  | ds => ds.map fun d =>
      { file := file, segment := idx + 1, startTime := ts, durationS := dur,
        song := d.title, artist := d.artist, confidence := d.confidence,
        method := d.method }

/-- The enumerated loop of `analyze_segments`: segments shorter than 30 s
are skipped (but still counted by the enumeration index). -/
noncomputable def analyzeSegmentsAux (file : String) :
    List Seg → ℕ → Except Unit (List Row)
  | [], _ => .ok []
  | seg :: rest, i =>
    if seg.endMs - seg.startMs < 30000 then analyzeSegmentsAux file rest (i + 1)
    else
      match detectSongSegment seg.env with
      | .error e => .error e
      | .ok ds =>
        match analyzeSegmentsAux file rest (i + 1) with
        | .error e => .error e
        | .ok rows =>
          .ok (rowsFor file i (segmentTimestamp seg.startMs)
                ((seg.endMs - seg.startMs) / 1000) ds ++ rows)

/-- `RehearsalProcessor.analyze_segments`. -/
noncomputable def analyzeSegments (file : String) (segs : List Seg) :
    Except Unit (List Row) :=
  analyzeSegmentsAux file segs 0

/-- Reachability facts about a per-segment environment that come from the
surrounding program: `acoustid.match` reports scores in `[0, 1]`, and all
signatures are produced by `_extract_signature`, whose librosa tempo is
nonnegative and whose chroma and MFCC vectors have the fixed dimensions
12 and 12. -/
def envOk (env : Env) : Prop :=
  (∀ row ∈ env.acoustidRows, 0 ≤ row.score ∧ row.score ≤ 1) ∧
  (∀ q, env.querySig = some q →
    0 ≤ q.tempo ∧ ∀ p ∈ env.refSigs, 0 ≤ p.2.tempo ∧
      p.2.chroma.length = q.chroma.length ∧ p.2.mfcc.length = q.mfcc.length)

/-! ## Lemmas about the first-maximum scan -/

theorem argmaxAux_cases [LinearOrder α] :
    ∀ (l : List α) (i bi : ℕ) (bv : α),
      (argmaxAux l i bi bv = bi ∧ ∀ k, ∀ hk : k < l.length, l.get ⟨k, hk⟩ ≤ bv)
      ∨ (∃ k, ∃ hk : k < l.length, argmaxAux l i bi bv = i + k ∧ bv < l.get ⟨k, hk⟩ ∧
          (∀ m, ∀ hm : m < l.length, l.get ⟨m, hm⟩ ≤ l.get ⟨k, hk⟩) ∧
          (∀ m, ∀ hm : m < l.length, m < k → l.get ⟨m, hm⟩ < l.get ⟨k, hk⟩)) := by
  intro l
  induction l with
  | nil => intro i bi bv; left; exact ⟨rfl, fun k hk => absurd hk (Nat.not_lt_zero k)⟩
  | cons x xs ih =>
    intro i bi bv
    by_cases hx : bv < x
    · rcases ih (i + 1) i x with ⟨heq, hall⟩ | ⟨k, hk, heq, hlt, hall, hfirst⟩
      · right
        refine ⟨0, Nat.succ_pos _, by simpa [argmaxAux, hx] using heq, hx, ?_, ?_⟩
        · intro m hm
          cases m with
          | zero => exact le_refl _
          | succ m => exact hall m (Nat.lt_of_succ_lt_succ hm)
        · intro m hm hm0; exact absurd hm0 (Nat.not_lt_zero m)
      · right
        refine ⟨k + 1, Nat.succ_lt_succ hk, ?_, lt_trans hx hlt, ?_, ?_⟩
        · simpa [argmaxAux, hx, Nat.add_assoc, Nat.add_comm 1 k] using heq
        · intro m hm
          cases m with
          | zero => exact le_of_lt hlt
          | succ m => exact hall m (Nat.lt_of_succ_lt_succ hm)
        · intro m hm hmk
          cases m with
          | zero => exact hlt
          | succ m =>
            exact hfirst m (Nat.lt_of_succ_lt_succ hm) (Nat.lt_of_succ_lt_succ hmk)
    · rcases ih (i + 1) bi bv with ⟨heq, hall⟩ | ⟨k, hk, heq, hlt, hall, hfirst⟩
      · left
        refine ⟨by simpa [argmaxAux, hx] using heq, ?_⟩
        intro m hm
        cases m with
        | zero => exact le_of_not_lt hx
        | succ m => exact hall m (Nat.lt_of_succ_lt_succ hm)
      · right
        refine ⟨k + 1, Nat.succ_lt_succ hk, ?_, hlt, ?_, ?_⟩
        · simpa [argmaxAux, hx, Nat.add_assoc, Nat.add_comm 1 k] using heq
        · intro m hm
          cases m with
          | zero => exact le_of_lt (lt_of_le_of_lt (le_of_not_lt hx) hlt)
          | succ m => exact hall m (Nat.lt_of_succ_lt_succ hm)
        · intro m hm hmk
          cases m with
          | zero => exact lt_of_le_of_lt (le_of_not_lt hx) hlt
          | succ m =>
            exact hfirst m (Nat.lt_of_succ_lt_succ hm) (Nat.lt_of_succ_lt_succ hmk)

theorem argmaxIdx_lt_length [LinearOrder α] (l : List α) (h : l ≠ []) :
    argmaxIdx l < l.length := by
  cases l with
  | nil => exact absurd rfl h
  | cons x xs =>
    show argmaxAux xs 1 0 x < xs.length + 1
    rcases argmaxAux_cases xs 1 0 x with ⟨heq, _⟩ | ⟨k, hk, heq, _⟩
    · simpa [heq] using Nat.succ_pos xs.length
    · rw [heq]; omega

theorem argmaxIdx_is_max [LinearOrder α] (l : List α) (d : α) :
    ∀ j, j < l.length → l.getD j d ≤ l.getD (argmaxIdx l) d := by
  cases l with
  | nil => intro j hj; exact absurd hj (Nat.not_lt_zero j)
  | cons x xs =>
    intro j hj
    have hlt : argmaxIdx (x :: xs) < (x :: xs).length :=
      argmaxIdx_lt_length _ (by simp)
    rw [List.getD_eq_get _ d hj, List.getD_eq_get _ d hlt]
    show (x :: xs).get ⟨j, hj⟩ ≤ (x :: xs).get ⟨argmaxAux xs 1 0 x, hlt⟩
    rcases argmaxAux_cases xs 1 0 x with ⟨heq, hall⟩ | ⟨k, hk, heq, hblt, hall, _⟩
    · have : (⟨argmaxAux xs 1 0 x, hlt⟩ : Fin (x :: xs).length) = ⟨0, Nat.succ_pos _⟩ := by
        apply Fin.ext; simpa using heq
      rw [this]
      cases j with
      | zero => exact le_refl _
      | succ j => exact hall j (Nat.lt_of_succ_lt_succ hj)
    · have : (⟨argmaxAux xs 1 0 x, hlt⟩ : Fin (x :: xs).length)
          = ⟨k + 1, Nat.succ_lt_succ hk⟩ := by
        apply Fin.ext; simpa [Nat.add_comm 1 k] using heq
      rw [this]
      show (x :: xs).get ⟨j, hj⟩ ≤ xs.get ⟨k, hk⟩
      cases j with
      | zero => exact le_of_lt hblt
      | succ j => exact hall j (Nat.lt_of_succ_lt_succ hj)

theorem argmaxIdx_is_first [LinearOrder α] (l : List α) (d : α) :
    ∀ j, j < argmaxIdx l → l.getD j d < l.getD (argmaxIdx l) d := by
  cases l with
  | nil => intro j hj; simp [argmaxIdx] at hj
  | cons x xs =>
    intro j hj
    have hlt : argmaxIdx (x :: xs) < (x :: xs).length :=
      argmaxIdx_lt_length _ (by simp)
    have hjlen : j < (x :: xs).length := lt_trans hj hlt
    rw [List.getD_eq_get _ d hjlen, List.getD_eq_get _ d hlt]
    show (x :: xs).get ⟨j, hjlen⟩ < (x :: xs).get ⟨argmaxAux xs 1 0 x, hlt⟩
    rcases argmaxAux_cases xs 1 0 x with ⟨heq, hall⟩ | ⟨k, hk, heq, hblt, hall, hfirst⟩
    · have h0 : argmaxIdx (x :: xs) = 0 := heq
      omega
    · have hfin : (⟨argmaxAux xs 1 0 x, hlt⟩ : Fin (x :: xs).length)
          = ⟨k + 1, Nat.succ_lt_succ hk⟩ := by
        apply Fin.ext; simpa [Nat.add_comm 1 k] using heq
      rw [hfin]
      show (x :: xs).get ⟨j, hjlen⟩ < xs.get ⟨k, hk⟩
      have hjk : j < k + 1 := by
        have hlink : argmaxIdx (x :: xs) = argmaxAux xs 1 0 x := rfl
        have : argmaxAux xs 1 0 x = k + 1 := by simpa [Nat.add_comm 1 k] using heq
        omega
      cases j with
      | zero => exact hblt
      | succ j =>
        exact hfirst j (Nat.lt_of_succ_lt_succ hjlen) (Nat.lt_of_succ_lt_succ hjk)

/-! ## Timestamps (claim C10) -/

theorem pad2_length_two : ∀ s, s < 60 → (pad2 s).length = 2 := by decide

/-- C10: for every nonnegative millisecond value, the timestamp formatter
returns the zero-padded MM:SS string whose minutes part is `ms / 60000`
and whose seconds part is `ms / 1000 % 60`, always below 60; it agrees
with the inline formatter of `analyze_segments`, and the seconds field is
exactly two characters. -/
theorem ms_to_timestamp_spec (ms : ℕ) :
    msToTimestamp ms = pad2 (ms / 60000) ++ ":" ++ pad2 (ms / 1000 % 60) ∧
    ms / 1000 % 60 < 60 ∧
    msToTimestamp ms = segmentTimestamp ms ∧
    (pad2 (ms / 1000 % 60)).length = 2 := by
  have hdiv : ms / 1000 / 60 = ms / 60000 := by
    rw [Nat.div_div_eq_div_mul]
  have hmod : ms / 1000 % 60 < 60 := Nat.mod_lt _ (by norm_num)
  refine ⟨?_, hmod, ?_, pad2_length_two _ hmod⟩
  · show pad2 (ms / 1000 / 60) ++ ":" ++ pad2 (ms / 1000 % 60)
      = pad2 (ms / 60000) ++ ":" ++ pad2 (ms / 1000 % 60)
    rw [hdiv]
  · show pad2 (ms / 1000 / 60) ++ ":" ++ pad2 (ms / 1000 % 60)
      = pad2 (ms / 60000) ++ ":" ++ pad2 (ms / 1000 % 60)
    rw [hdiv]

/-! ## Loudness sampling windows (claim C7) -/

theorem sampleWindows_full_prefix (lenMs : ℕ) :
    ∀ q : ℕ, q * 100 ≤ lenMs →
      ((List.range q).map (· * 100)).filterMap (fun i =>
          let clen := min 100 (lenMs - i)
          if 0 < clen then some (i, clen) else none)
        = (List.range q).map fun j => (j * 100, 100) := by
  intro q
  induction q with
  | zero => intro _; rfl
  | succ n ih =>
    intro h
    rw [List.range_succ, List.map_append, List.map_append, List.filterMap_append,
      ih (by omega)]
    have hmin : min 100 (lenMs - n * 100) = 100 := by omega
    congr 1
    simp only [List.map_cons, List.map_nil, List.filterMap_cons, List.filterMap_nil]
    rw [hmin]
    simp

/-- C7 (amended): the sampling loop keeps a final partial window with its
own true length; the windows are the `lenMs / 100` full 100 ms windows
followed, when the duration is not a multiple of 100 ms, by one partial
window of length `lenMs % 100`, and the analyzed loudness sequence has
one value per window. -/
theorem sample_windows_spec (lenMs : ℕ) :
    sampleWindows lenMs =
      ((List.range (lenMs / 100)).map fun j => (j * 100, 100)) ++
        (if lenMs % 100 = 0 then [] else [(lenMs / 100 * 100, lenMs % 100)]) ∧
    ∀ dbfs : ℕ → ℕ → Option ℚ,
      (sampleDbfs dbfs lenMs).length
        = lenMs / 100 + (if lenMs % 100 = 0 then 0 else 1) := by
  have hmain : sampleWindows lenMs =
      ((List.range (lenMs / 100)).map fun j => (j * 100, 100)) ++
        (if lenMs % 100 = 0 then [] else [(lenMs / 100 * 100, lenMs % 100)]) := by
    unfold sampleWindows sampleStarts
    by_cases hr : lenMs % 100 = 0
    · have hq : (lenMs + 99) / 100 = lenMs / 100 := by omega
      rw [hq, sampleWindows_full_prefix lenMs (lenMs / 100) (by omega), if_pos hr,
        List.append_nil]
    · have hq : (lenMs + 99) / 100 = lenMs / 100 + 1 := by omega
      rw [hq, List.range_succ, List.map_append, List.filterMap_append,
        sampleWindows_full_prefix lenMs (lenMs / 100) (by omega), if_neg hr]
      have hmin : min 100 (lenMs - lenMs / 100 * 100) = lenMs % 100 := by omega
      congr 1
      simp only [List.map_cons, List.map_nil, List.filterMap_cons, List.filterMap_nil]
      rw [hmin, if_pos (Nat.pos_of_ne_zero hr)]
  refine ⟨hmain, fun dbfs => ?_⟩
  unfold sampleDbfs
  rw [List.length_map, hmain]
  by_cases hr : lenMs % 100 = 0 <;> simp [hr]

/-- C7 counterexample: on a 250 ms buffer the loop does not drop the
partial final window; it samples three windows, the last of true length
50 ms, not only the two full windows. -/
theorem sample_windows_partial_kept :
    sampleWindows 250 = [(0, 100), (100, 100), (200, 50)] ∧
    (200, 50) ∈ sampleWindows 250 ∧ (50 : ℕ) < 100 ∧
    (sampleDbfs (fun _ _ => none) 250).length = 3 ∧ 250 / 100 = 2 := by decide

/-! ## Threshold recommender (claim C6) -/

/-- C6 (amended): with no finite loudness value the recommender returns
the fallback `-40`; otherwise it returns `round(edge - 5)` (Python
banker's rounding to an integer) where `edge` is the left edge
`lo + b * w` of the first bin `b` of highest count in the 50-bin
histogram, ties broken by lowest bin index. -/
theorem recommend_threshold_spec (vals : List (Option ℚ)) :
    (vals.filterMap id = [] → recommendSilenceThreshold vals = -40) ∧
    (vals.filterMap id ≠ [] →
      (histCounts (vals.filterMap id)).length = 50 ∧
      argmaxIdx (histCounts (vals.filterMap id)) < 50 ∧
      recommendSilenceThreshold vals =
        pyRound (histLo (vals.filterMap id)
          + (argmaxIdx (histCounts (vals.filterMap id)) : ℚ) * histW (vals.filterMap id)
          - 5) ∧
      (∀ j, j < 50 →
        (histCounts (vals.filterMap id)).getD j 0
          ≤ (histCounts (vals.filterMap id)).getD
              (argmaxIdx (histCounts (vals.filterMap id))) 0) ∧
      (∀ j, j < argmaxIdx (histCounts (vals.filterMap id)) →
        (histCounts (vals.filterMap id)).getD j 0
          < (histCounts (vals.filterMap id)).getD
              (argmaxIdx (histCounts (vals.filterMap id))) 0)) := by
  constructor
  · intro h
    unfold recommendSilenceThreshold
    rw [if_pos h]
  · intro h
    have hlen : (histCounts (vals.filterMap id)).length = 50 := by
      unfold histCounts
      simp
    refine ⟨hlen, ?_, ?_, ?_, ?_⟩
    · have := argmaxIdx_lt_length (histCounts (vals.filterMap id))
        (by intro hc; rw [hc] at hlen; simp at hlen)
      omega
    · unfold recommendSilenceThreshold
      rw [if_neg h]
    · intro j hj
      exact argmaxIdx_is_max _ 0 j (by omega)
    · intro j hj
      exact argmaxIdx_is_first _ 0 j hj

/-- C6 witness at a concrete input: no finite value remains, fallback
`-40` is returned. -/
theorem recommend_threshold_spec_witness :
    recommendSilenceThreshold [] = -40 :=
  (recommend_threshold_spec []).1 rfl

theorem histLo_pair : histLo [(-303/10 : ℚ), -303/10] = -154/5 := by
  norm_num [histLo, List.foldl_cons, List.foldl_nil, min_self, max_self]

theorem histHi_pair : histHi [(-303/10 : ℚ), -303/10] = -149/5 := by
  norm_num [histHi, List.foldl_cons, List.foldl_nil, min_self, max_self]

theorem histW_pair : histW [(-303/10 : ℚ), -303/10] = 1/50 := by
  unfold histW
  rw [histLo_pair, histHi_pair]
  norm_num

theorem binIndex_pair : binIndex (-154/5) (1/50) (-303/10) = 25 := by
  norm_num [binIndex]
  rfl

theorem filter_count_pair (b : ℕ) :
    (([(-303/10 : ℚ), -303/10]).filter fun u =>
      binIndex (histLo [(-303/10 : ℚ), -303/10])
        (histW [(-303/10 : ℚ), -303/10]) u = b).length
    = if 25 = b then 2 else 0 := by
  rw [histLo_pair, histW_pair]
  simp only [List.filter_cons, List.filter_nil]
  rw [binIndex_pair]
  by_cases h : (25 : ℕ) = b <;> simp [h]

theorem histCounts_pair : histCounts [(-303/10 : ℚ), -303/10]
    = (List.range 50).map fun b => if 25 = b then 2 else 0 := by
  unfold histCounts
  congr 1
  funext b
  exact filter_count_pair b

theorem argmax_pair :
    argmaxIdx ((List.range 50).map fun b => if 25 = b then 2 else 0) = 25 := by
  decide

theorem pyRound_neg353 : pyRound (-353/10) = -35 := by
  norm_num [pyRound]

/-- C6 counterexample to the unrounded reading: for the loudness sequence
`[-30.3, -30.3]` the left edge of the highest-count bin minus 5 is
`-35.3`, but the function returns the rounded integer `-35`. -/
theorem recommend_threshold_rounding :
    recommendSilenceThreshold [some (-303/10), some (-303/10)] = -35 ∧
    histLo [(-303/10 : ℚ), -303/10]
      + (argmaxIdx (histCounts [(-303/10 : ℚ), -303/10]) : ℚ)
        * histW [(-303/10 : ℚ), -303/10] - 5 = -353/10 ∧
    ((-35 : ℚ) ≠ -353/10) := by
  have hdata : ([some (-303/10), some (-303/10)] : List (Option ℚ)).filterMap id
      = [(-303/10 : ℚ), -303/10] := rfl
  have hedge : histLo [(-303/10 : ℚ), -303/10]
      + (argmaxIdx (histCounts [(-303/10 : ℚ), -303/10]) : ℚ)
        * histW [(-303/10 : ℚ), -303/10] - 5 = -353/10 := by
    rw [histCounts_pair, argmax_pair, histLo_pair, histW_pair]
    norm_num
  refine ⟨?_, hedge, by norm_num⟩
  show (if ([some (-303/10), some (-303/10)] : List (Option ℚ)).filterMap id = [] then
      (-40 : ℤ)
    else pyRound (histLo (([some (-303/10), some (-303/10)] : List (Option ℚ)).filterMap id)
      + (argmaxIdx (histCounts (([some (-303/10), some (-303/10)] :
          List (Option ℚ)).filterMap id)) : ℚ)
        * histW (([some (-303/10), some (-303/10)] : List (Option ℚ)).filterMap id) - 5))
    = -35
  rw [hdata, if_neg (by simp), hedge]
  exact pyRound_neg353

/-! ## Tempo heuristic (claim C8) -/

/-- C8: the tempo/key fallback produces a detection exactly when the
estimated tempo lies in `[60, 180]` BPM, and assigns confidence
`min(0.7, tempo/120)`, hence at most 0.7. -/
theorem tempo_detect_spec (f : TempoFeatures) :
    (tempoDetectCore f ≠ [] ↔ (60 ≤ f.tempoVal ∧ f.tempoVal ≤ 180)) ∧
    (∀ d ∈ tempoDetectCore f,
      d.confidence = ((min 0.7 (f.tempoVal / 120) : ℚ) : ℝ) ∧
      d.confidence ≤ 0.7 ∧ d.method = "audio_signature") := by
  unfold tempoDetectCore
  by_cases h : 60 ≤ f.tempoVal ∧ f.tempoVal ≤ 180
  · rw [if_pos h]
    refine ⟨by simp [h], ?_⟩
    intro d hd
    rw [List.mem_singleton] at hd
    subst hd
    refine ⟨rfl, ?_, rfl⟩
    show ((min 0.7 (f.tempoVal / 120) : ℚ) : ℝ) ≤ 0.7
    have hle : (min (0.7 : ℚ) (f.tempoVal / 120)) ≤ 0.7 := min_le_left _ _
    have hcast : ((min 0.7 (f.tempoVal / 120) : ℚ) : ℝ) ≤ ((0.7 : ℚ) : ℝ) := by
      exact_mod_cast hle
    simpa using hcast
  · rw [if_neg h]
    exact ⟨by simp [h], by intro d hd; simp at hd⟩

/-- C8 witness at tempo 120 BPM. -/
theorem tempo_detect_spec_witness :
    (tempoDetectCore ⟨120, [1], [0]⟩ ≠ [] ↔ ((60 : ℚ) ≤ 120 ∧ (120 : ℚ) ≤ 180)) ∧
    (∀ d ∈ tempoDetectCore ⟨120, [1], [0]⟩,
      d.confidence = ((min 0.7 ((120 : ℚ) / 120) : ℚ) : ℝ) ∧
      d.confidence ≤ 0.7 ∧ d.method = "audio_signature") :=
  tempo_detect_spec ⟨120, [1], [0]⟩

/-! ## Matching engine: numeric lemmas -/

theorem varSum_nonneg (x : List ℚ) : 0 ≤ varSum x :=
  Finset.sum_nonneg fun _ _ => sq_nonneg _

theorem covSum_self (x : List ℚ) : covSum x x = varSum x :=
  Finset.sum_congr rfl fun i _ => (pow_two (dev x i)).symm

theorem varSum_pos (x : List ℚ) (h : varSum x ≠ 0) : (0 : ℝ) < (varSum x : ℝ) := by
  have h1 := varSum_nonneg x
  have h2 : (0 : ℚ) < varSum x := lt_of_le_of_ne h1 (Ne.symm h)
  exact_mod_cast h2

/-- Pearson correlation of a vector with itself is exactly 1 whenever the
vector is not constant. -/
theorem pearson_self (x : List ℚ) (h : varSum x ≠ 0) : pearson x x = some 1 := by
  unfold pearson
  rw [if_neg (by simp [h])]
  have hpos := varSum_pos x h
  rw [covSum_self, Real.sqrt_mul_self hpos.le]
  rw [div_self hpos.ne']

theorem covSum_sq_le (x y : List ℚ) (h : x.length = y.length) :
    covSum x y ^ 2 ≤ varSum x * varSum y := by
  have hcs := Finset.sum_mul_sq_le_sq_mul_sq (Finset.range x.length) (dev x) (dev y)
  unfold covSum varSum
  rw [← h]
  exact hcs

/-- A defined Pearson correlation never exceeds 1 (Cauchy-Schwarz). -/
theorem pearson_le_one (x y : List ℚ) (h : x.length = y.length) (c : ℝ)
    (hc : pearson x y = some c) : c ≤ 1 := by
  unfold pearson at hc
  by_cases hz : varSum x = 0 ∨ varSum y = 0
  · rw [if_pos hz] at hc
    exact absurd hc (by simp)
  · rw [if_neg hz] at hc
    push_neg at hz
    obtain ⟨hx, hy⟩ := hz
    injection hc with hc
    subst hc
    have hprod : (0 : ℝ) < (varSum x : ℝ) * (varSum y : ℝ) :=
      mul_pos (varSum_pos x hx) (varSum_pos y hy)
    have hsq : (0 : ℝ) < Real.sqrt ((varSum x : ℝ) * (varSum y : ℝ)) :=
      Real.sqrt_pos.mpr hprod
    rw [div_le_one hsq]
    have hcs : ((covSum x y : ℝ)) ^ 2 ≤ (varSum x : ℝ) * (varSum y : ℝ) := by
      exact_mod_cast covSum_sq_le x y h
    calc (covSum x y : ℝ) ≤ |(covSum x y : ℝ)| := le_abs_self _
      _ = Real.sqrt (((covSum x y : ℝ)) ^ 2) := (Real.sqrt_sq_eq_abs _).symm
      _ ≤ Real.sqrt ((varSum x : ℝ) * (varSum y : ℝ)) := Real.sqrt_le_sqrt hcs

theorem clampCorr_nonneg (c : Option ℝ) : 0 ≤ clampCorr c := by
  cases c with
  | none => exact le_refl 0
  | some v => exact le_max_left 0 v

theorem clampCorr_le_one (x y : List ℚ) (h : x.length = y.length) :
    clampCorr (pearson x y) ≤ 1 := by
  cases hp : pearson x y with
  | none => show (0 : ℝ) ≤ 1; norm_num
  | some c =>
    show max 0 c ≤ 1
    exact max_le (by norm_num) (pearson_le_one x y h c hp)

theorem tempoScore_nonneg (tq tr : ℚ) : 0 ≤ tempoScore tq tr := le_max_left _ _

theorem tempoScore_le_one (tq tr : ℚ) (hq : 0 ≤ tq) (hr : 0 ≤ tr)
    (h : max tq tr ≠ 0) : tempoScore tq tr ≤ 1 := by
  unfold tempoScore
  have hmax : 0 < max tq tr :=
    lt_of_le_of_ne (le_trans hq (le_max_left _ _)) (Ne.symm h)
  have habs : 0 ≤ |tq - tr| / max tq tr := div_nonneg (abs_nonneg _) hmax.le
  exact max_le (by norm_num) (by linarith)

theorem tempoScore_self (t : ℚ) (h : 0 < t) : tempoScore t t = 1 := by
  unfold tempoScore
  rw [max_self, sub_self, abs_zero, zero_div, sub_zero]
  exact max_eq_right zero_le_one

/-- The combined score computation raises (is `none`) exactly on the
degenerate pair of two zero tempos (over the nonnegative tempos librosa
produces). -/
theorem combinedScore_none_iff (q r : Signature) (hq : 0 ≤ q.tempo)
    (hr : 0 ≤ r.tempo) :
    combinedScore q r = none ↔ (q.tempo = 0 ∧ r.tempo = 0) := by
  unfold combinedScore
  by_cases h : max q.tempo r.tempo = 0
  · rw [if_pos h]
    simp only [true_iff]
    constructor
    · exact le_antisymm (le_trans (le_max_left _ _) (le_of_eq h)) hq
    · exact le_antisymm (le_trans (le_max_right _ _) (le_of_eq h)) hr
  · rw [if_neg h]
    simp only [reduceCtorEq, false_iff]
    rintro ⟨h1, h2⟩
    exact h (by rw [h1, h2, max_self])

theorem combinedScore_eq (q r : Signature) (h : ¬max q.tempo r.tempo = 0) :
    combinedScore q r = some ((tempoScore q.tempo r.tempo : ℝ) * 0.3
      + clampCorr (pearson q.chroma r.chroma) * 0.5
      + clampCorr (pearson q.mfcc r.mfcc) * 0.2) := by
  unfold combinedScore
  rw [if_neg h]

theorem combinedScore_nonneg (q r : Signature) (s : ℝ)
    (h : combinedScore q r = some s) : 0 ≤ s := by
  unfold combinedScore at h
  by_cases hz : max q.tempo r.tempo = 0
  · rw [if_pos hz] at h
    exact absurd h (by simp)
  · rw [if_neg hz] at h
    injection h with h
    subst h
    have h1 : (0 : ℝ) ≤ (tempoScore q.tempo r.tempo : ℝ) := by
      exact_mod_cast tempoScore_nonneg q.tempo r.tempo
    have h2 := clampCorr_nonneg (pearson q.chroma r.chroma)
    have h3 := clampCorr_nonneg (pearson q.mfcc r.mfcc)
    nlinarith

theorem combinedScore_le_one (q r : Signature) (hq : 0 ≤ q.tempo) (hr : 0 ≤ r.tempo)
    (hlc : q.chroma.length = r.chroma.length) (hlm : q.mfcc.length = r.mfcc.length)
    (s : ℝ) (h : combinedScore q r = some s) : s ≤ 1 := by
  unfold combinedScore at h
  by_cases hz : max q.tempo r.tempo = 0
  · rw [if_pos hz] at h
    exact absurd h (by simp)
  · rw [if_neg hz] at h
    injection h with h
    subst h
    have h1 : (tempoScore q.tempo r.tempo : ℝ) ≤ 1 := by
      exact_mod_cast tempoScore_le_one q.tempo r.tempo hq hr hz
    have h1a : (0 : ℝ) ≤ (tempoScore q.tempo r.tempo : ℝ) := by
      exact_mod_cast tempoScore_nonneg q.tempo r.tempo
    have h2 := clampCorr_le_one q.chroma r.chroma hlc
    have h2a := clampCorr_nonneg (pearson q.chroma r.chroma)
    have h3 := clampCorr_le_one q.mfcc r.mfcc hlm
    have h3a := clampCorr_nonneg (pearson q.mfcc r.mfcc)
    nlinarith

/-! ## Matching engine: loop characterization -/

/-- Characterization of the best-match scan: from state `(b0, s0)` it
either keeps the state (no score beat both the state and the 0.6 floor)
or ends on the first entry attaining the final maximum, that maximum
being above 0.6 and above every other admissible score. -/
theorem refLoop_spec (q : Signature) :
    ∀ (l : List (String × Signature)) (b0 : Option String) (s0 : ℝ),
      (∀ p ∈ l, combinedScore q p.2 ≠ none) →
      ∃ b s, refLoop q l b0 s0 = .ok (b, s) ∧
        ((b = b0 ∧ s = s0 ∧
            ∀ p ∈ l, ∀ x, combinedScore q p.2 = some x → (x ≤ s0 ∨ x ≤ 0.6))
         ∨ (∃ i, ∃ hi : i < l.length,
              b = some (l.get ⟨i, hi⟩).1 ∧
              combinedScore q (l.get ⟨i, hi⟩).2 = some s ∧
              (0.6 : ℝ) < s ∧ s0 < s ∧
              (∀ j, ∀ hj : j < l.length, j < i →
                ∀ x, combinedScore q (l.get ⟨j, hj⟩).2 = some x → x < s) ∧
              (∀ j, ∀ hj : j < l.length,
                ∀ x, combinedScore q (l.get ⟨j, hj⟩).2 = some x →
                  (x ≤ s ∨ x ≤ 0.6)))) := by
  intro l
  induction l with
  | nil =>
    intro b0 s0 _
    exact ⟨b0, s0, rfl, Or.inl ⟨rfl, rfl, by intro p hp; simp at hp⟩⟩
  | cons hd rest ih =>
    intro b0 s0 hdef
    obtain ⟨nm, r⟩ := hd
    have hhd : combinedScore q r ≠ none := hdef (nm, r) (List.mem_cons_self _ _)
    cases hx : combinedScore q r with
    | none => exact absurd hx hhd
    | some x =>
      have hrest : ∀ p ∈ rest, combinedScore q p.2 ≠ none :=
        fun p hp => hdef p (List.mem_cons_of_mem _ hp)
      have hstep : refLoop q ((nm, r) :: rest) b0 s0 =
          if s0 < x ∧ (0.6 : ℝ) < x then refLoop q rest (some nm) x
          else refLoop q rest b0 s0 := by
        show (match combinedScore q r with
          | none => Except.error ()
          | some s =>
            if s0 < s ∧ (0.6 : ℝ) < s then refLoop q rest (some nm) s
            else refLoop q rest b0 s0) = _
        rw [hx]
      by_cases hcond : s0 < x ∧ (0.6 : ℝ) < x
      · obtain ⟨b, s, heq, hcases⟩ := ih (some nm) x hrest
        refine ⟨b, s, by rw [hstep, if_pos hcond]; exact heq, ?_⟩
        rcases hcases with ⟨hb, hs, hall⟩ | ⟨i, hi, hb, hsc, h6, hgt, hfirst, hall⟩
        · subst hs
          refine Or.inr ⟨0, Nat.succ_pos _, hb, hx, hcond.2, hcond.1, ?_, ?_⟩
          · intro j hj hj0
            exact absurd hj0 (Nat.not_lt_zero j)
          · intro j hj
            cases j with
            | zero =>
              intro y hy
              have hy2 : combinedScore q r = some y := hy
              rw [hx] at hy2
              injection hy2 with hy2
              exact Or.inl (le_of_eq hy2.symm)
            | succ j =>
              intro y hy
              exact hall (rest.get ⟨j, Nat.lt_of_succ_lt_succ hj⟩)
                (rest.get_mem _ _) y hy
        · refine Or.inr ⟨i + 1, Nat.succ_lt_succ hi, hb, hsc, h6,
            lt_trans hcond.1 hgt, ?_, ?_⟩
          · intro j hj hji
            cases j with
            | zero =>
              intro y hy
              have hy2 : combinedScore q r = some y := hy
              rw [hx] at hy2
              injection hy2 with hy2
              exact hy2 ▸ hgt
            | succ j =>
              exact hfirst j (Nat.lt_of_succ_lt_succ hj) (Nat.lt_of_succ_lt_succ hji)
          · intro j hj
            cases j with
            | zero =>
              intro y hy
              have hy2 : combinedScore q r = some y := hy
              rw [hx] at hy2
              injection hy2 with hy2
              exact Or.inl (hy2 ▸ le_of_lt hgt)
            | succ j =>
              exact hall j (Nat.lt_of_succ_lt_succ hj)
      · have hnot : x ≤ s0 ∨ x ≤ 0.6 := by
          rcases not_and_or.mp hcond with h | h
          · exact Or.inl (le_of_not_lt h)
          · exact Or.inr (le_of_not_lt h)
        obtain ⟨b, s, heq, hcases⟩ := ih b0 s0 hrest
        refine ⟨b, s, by rw [hstep, if_neg hcond]; exact heq, ?_⟩
        rcases hcases with ⟨hb, hs, hall⟩ | ⟨i, hi, hb, hsc, h6, hgt, hfirst, hall⟩
        · refine Or.inl ⟨hb, hs, ?_⟩
          intro p hp y hy
          rcases List.mem_cons.mp hp with hph | hpt
          · have hy2 : combinedScore q r = some y := by rw [hph] at hy; exact hy
            rw [hx] at hy2
            injection hy2 with hy2
            exact hy2 ▸ hnot
          · exact hall p hpt y hy
        · refine Or.inr ⟨i + 1, Nat.succ_lt_succ hi, hb, hsc, h6, hgt, ?_, ?_⟩
          · intro j hj hji
            cases j with
            | zero =>
              intro y hy
              have hy2 : combinedScore q r = some y := hy
              rw [hx] at hy2
              injection hy2 with hy2
              subst hy2
              rcases hnot with h | h
              · exact lt_of_le_of_lt h hgt
              · exact lt_of_le_of_lt h h6
            | succ j =>
              exact hfirst j (Nat.lt_of_succ_lt_succ hj) (Nat.lt_of_succ_lt_succ hji)
          · intro j hj
            cases j with
            | zero =>
              intro y hy
              have hy2 : combinedScore q r = some y := hy
              rw [hx] at hy2
              injection hy2 with hy2
              subst hy2
              rcases hnot with h | h
              · exact Or.inl (le_of_lt (lt_of_le_of_lt h hgt))
              · exact Or.inr h
            | succ j =>
              exact hall j (Nat.lt_of_succ_lt_succ hj)

theorem combinedScore_isSome (q r : Signature) (hq : 0 ≤ q.tempo) (hr : 0 ≤ r.tempo)
    (h : ¬(q.tempo = 0 ∧ r.tempo = 0)) : combinedScore q r ≠ none := by
  rw [Ne, combinedScore_none_iff q r hq hr]
  exact h

theorem combinedScore_some_max (q r : Signature) (s : ℝ)
    (h : combinedScore q r = some s) : ¬max q.tempo r.tempo = 0 := by
  intro hm
  unfold combinedScore at h
  rw [if_pos hm] at h
  exact absurd h (by simp)

theorem combinedScore_some_eq (q r : Signature) (s : ℝ)
    (h : combinedScore q r = some s) :
    s = (tempoScore q.tempo r.tempo : ℝ) * 0.3
      + clampCorr (pearson q.chroma r.chroma) * 0.5
      + clampCorr (pearson q.mfcc r.mfcc) * 0.2 := by
  have hm := combinedScore_some_max q r s h
  rw [combinedScore_eq q r hm] at h
  injection h with h
  exact h.symm

/-- Unfolding of `referenceMatch` when the scan keeps no best match. -/
theorem referenceMatch_ok_none (q : Signature) (db : List (String × Signature))
    (s : ℝ) (heq : refLoop q db none 0 = .ok (none, s)) :
    referenceMatch q db = .ok [] := by
  unfold referenceMatch
  rw [heq]

/-- Unfolding of `referenceMatch` when the scan ends on a non-empty
best-match name. -/
theorem referenceMatch_ok_some (q : Signature) (db : List (String × Signature))
    (name : String) (s : ℝ) (heq : refLoop q db none 0 = .ok (some name, s))
    (hname : ¬name = "") :
    referenceMatch q db = .ok [{ title := name, artist := "Cover",
                                 confidence := s, method := "reference_match" }] := by
  unfold referenceMatch
  rw [heq]
  show (if name = "" then Except.ok []
    else Except.ok [({ title := name, artist := "Cover",
                       confidence := s, method := "reference_match" } : Detection)]) = _
  rw [if_neg hname]

/-- Bounds for the running best score of the scan. -/
theorem refLoop_ok_bounds (q : Signature) :
    ∀ (l : List (String × Signature)) (b0 : Option String) (s0 : ℝ)
      (b : Option String) (s : ℝ),
      refLoop q l b0 s0 = .ok (b, s) → 0 ≤ s0 → s0 ≤ 1 →
      (∀ p ∈ l, ∀ x, combinedScore q p.2 = some x → x ≤ 1) →
      0 ≤ s ∧ s ≤ 1 := by
  intro l
  induction l with
  | nil =>
    intro b0 s0 b s h h0 h1 _
    have h2 : Except.ok (ε := Unit) (b0, s0) = Except.ok (b, s) := h
    injection h2 with h2
    have h3 : s0 = s := congrArg Prod.snd h2
    exact ⟨h3 ▸ h0, h3 ▸ h1⟩
  | cons hd rest ih =>
    intro b0 s0 b s h h0 h1 hle
    obtain ⟨nm, r⟩ := hd
    have hrest : ∀ p ∈ rest, ∀ x, combinedScore q p.2 = some x → x ≤ 1 :=
      fun p hp => hle p (List.mem_cons_of_mem _ hp)
    cases hx : combinedScore q r with
    | none =>
      have hcontr : Except.error (α := Option String × ℝ) () = Except.ok (b, s) := by
        rw [← h]
        show Except.error () =
          (match combinedScore q r with
            | none => Except.error ()
            | some s1 =>
              if s0 < s1 ∧ (0.6 : ℝ) < s1 then refLoop q rest (some nm) s1
              else refLoop q rest b0 s0)
        rw [hx]
      exact absurd hcontr (by simp)
    | some x =>
      have hstep : refLoop q ((nm, r) :: rest) b0 s0 =
          if s0 < x ∧ (0.6 : ℝ) < x then refLoop q rest (some nm) x
          else refLoop q rest b0 s0 := by
        show (match combinedScore q r with
          | none => Except.error ()
          | some s1 =>
            if s0 < s1 ∧ (0.6 : ℝ) < s1 then refLoop q rest (some nm) s1
            else refLoop q rest b0 s0) = _
        rw [hx]
      rw [hstep] at h
      by_cases hcond : s0 < x ∧ (0.6 : ℝ) < x
      · rw [if_pos hcond] at h
        exact ih (some nm) x b s h (combinedScore_nonneg q r x hx)
          (hle (nm, r) (List.mem_cons_self _ _) x hx) hrest
      · rw [if_neg hcond] at h
        exact ih b0 s0 b s h h0 h1 hrest

/-! ## Claim C3: the matching engine contract -/

/-- C3: for every query signature and reference database over the
reachable signature domain (nonnegative tempos, matching feature vector
dimensions, no double-zero tempo pair, non-empty song names), every entry
receives the combined score `tempo*0.3 + chroma*0.5 + timbre*0.2` with
each sub-score clamped into `[0, 1]`; a match is reported only when the
best combined score strictly exceeds 0.6, the reported confidence is that
best score, and equal combined scores are resolved in favour of the
first-encountered entry in database iteration order. -/
theorem reference_match_spec (q : Signature) (db : List (String × Signature))
    (hq : 0 ≤ q.tempo)
    (hr : ∀ p ∈ db, 0 ≤ p.2.tempo)
    (hz : ∀ p ∈ db, ¬(q.tempo = 0 ∧ p.2.tempo = 0))
    (hlc : ∀ p ∈ db, q.chroma.length = p.2.chroma.length)
    (hlm : ∀ p ∈ db, q.mfcc.length = p.2.mfcc.length)
    (hn : ∀ p ∈ db, p.1 ≠ "") :
    ∃ res, referenceMatch q db = .ok res ∧
      (∀ p ∈ db, ∃ s, combinedScore q p.2 = some s ∧
        s = (tempoScore q.tempo p.2.tempo : ℝ) * 0.3
          + clampCorr (pearson q.chroma p.2.chroma) * 0.5
          + clampCorr (pearson q.mfcc p.2.mfcc) * 0.2 ∧
        (0 : ℚ) ≤ tempoScore q.tempo p.2.tempo ∧ tempoScore q.tempo p.2.tempo ≤ 1 ∧
        0 ≤ clampCorr (pearson q.chroma p.2.chroma) ∧
        clampCorr (pearson q.chroma p.2.chroma) ≤ 1 ∧
        0 ≤ clampCorr (pearson q.mfcc p.2.mfcc) ∧
        clampCorr (pearson q.mfcc p.2.mfcc) ≤ 1) ∧
      ((∀ p ∈ db, ∀ s, combinedScore q p.2 = some s → s ≤ 0.6) → res = []) ∧
      (∀ d, d ∈ res →
        res = [d] ∧ (0.6 : ℝ) < d.confidence ∧ d.artist = "Cover" ∧
        d.method = "reference_match" ∧
        ∃ i, ∃ hi : i < db.length,
          d.title = (db.get ⟨i, hi⟩).1 ∧
          combinedScore q (db.get ⟨i, hi⟩).2 = some d.confidence ∧
          (∀ j, ∀ hj : j < db.length, ∀ x,
            combinedScore q (db.get ⟨j, hj⟩).2 = some x → x ≤ d.confidence) ∧
          (∀ j, ∀ hj : j < db.length, j < i → ∀ x,
            combinedScore q (db.get ⟨j, hj⟩).2 = some x → x < d.confidence)) := by
  have hdef : ∀ p ∈ db, combinedScore q p.2 ≠ none :=
    fun p hp => combinedScore_isSome q p.2 hq (hr p hp) (hz p hp)
  have hform : ∀ p ∈ db, ∃ s, combinedScore q p.2 = some s ∧
      s = (tempoScore q.tempo p.2.tempo : ℝ) * 0.3
        + clampCorr (pearson q.chroma p.2.chroma) * 0.5
        + clampCorr (pearson q.mfcc p.2.mfcc) * 0.2 ∧
      (0 : ℚ) ≤ tempoScore q.tempo p.2.tempo ∧ tempoScore q.tempo p.2.tempo ≤ 1 ∧
      0 ≤ clampCorr (pearson q.chroma p.2.chroma) ∧
      clampCorr (pearson q.chroma p.2.chroma) ≤ 1 ∧
      0 ≤ clampCorr (pearson q.mfcc p.2.mfcc) ∧
      clampCorr (pearson q.mfcc p.2.mfcc) ≤ 1 := by
    intro p hp
    cases hc : combinedScore q p.2 with
    | none => exact absurd hc (hdef p hp)
    | some s =>
      have hmax := combinedScore_some_max q p.2 s hc
      exact ⟨s, rfl, combinedScore_some_eq q p.2 s hc,
        tempoScore_nonneg _ _, tempoScore_le_one _ _ hq (hr p hp) hmax,
        clampCorr_nonneg _, clampCorr_le_one _ _ (hlc p hp),
        clampCorr_nonneg _, clampCorr_le_one _ _ (hlm p hp)⟩
  obtain ⟨b, s, heq, hcases⟩ := refLoop_spec q db none 0 hdef
  rcases hcases with ⟨hb, _, _⟩ | ⟨i, hi, hb, hsc, h6, _, hfirst, hall⟩
  · subst hb
    refine ⟨[], referenceMatch_ok_none q db s heq, hform, fun _ => rfl, ?_⟩
    intro d hd
    simp at hd
  · have hmem : db.get ⟨i, hi⟩ ∈ db := db.get_mem _ _
    have hname : ¬(db.get ⟨i, hi⟩).1 = "" := hn _ hmem
    subst hb
    refine ⟨_, referenceMatch_ok_some q db (db.get ⟨i, hi⟩).1 s heq hname, hform,
      ?_, ?_⟩
    · intro hsmall
      exact absurd h6 (not_lt.mpr (hsmall _ hmem s hsc))
    · intro d hd
      rw [List.mem_singleton] at hd
      subst hd
      exact ⟨rfl, h6, rfl, rfl, i, hi, rfl, hsc,
        fun j hj x hx => (hall j hj x hx).elim id
          (fun hle => le_of_lt (lt_of_le_of_lt hle h6)), hfirst⟩

/-- C3 witness: a singleton database and a matching query with exact
rational correlation data. -/
theorem reference_match_spec_witness :
    ∃ res, referenceMatch ⟨120, [0, 1], [0, 1]⟩
      [("song", ⟨120, [0, 1], [0, 1]⟩)] = .ok res :=
  (reference_match_spec ⟨120, [0, 1], [0, 1]⟩ [("song", ⟨120, [0, 1], [0, 1]⟩)]
    (by norm_num)
    (by intro p hp; rw [List.mem_singleton] at hp; subst hp; norm_num)
    (by intro p hp; rw [List.mem_singleton] at hp; subst hp; norm_num)
    (by intro p hp; rw [List.mem_singleton] at hp; subst hp; rfl)
    (by intro p hp; rw [List.mem_singleton] at hp; subst hp; rfl)
    (by intro p hp; rw [List.mem_singleton] at hp; subst hp; simp)).elim
    fun res hres => ⟨res, hres.1⟩

/-! ## Claim C4: identical query and reference signature -/

theorem varSum_pair_one : varSum [(1 : ℚ), 1] = 0 := by
  norm_num [varSum, dev, qmean, Finset.sum_range_succ]

/-- C4 counterexample: an identical query and reference signature with
constant chroma and MFCC vectors scores `0.3`, not `1.0` (the NaN
correlations are clamped to 0), and no match at all is reported. -/
theorem identical_degenerate_no_match :
    combinedScore ⟨120, [1, 1], [1, 1]⟩ ⟨120, [1, 1], [1, 1]⟩ = some 0.3 ∧
    combinedScore ⟨120, [1, 1], [1, 1]⟩ ⟨120, [1, 1], [1, 1]⟩ ≠ some 1 ∧
    referenceMatch ⟨120, [1, 1], [1, 1]⟩
      [("a", ⟨120, [1, 1], [1, 1]⟩)] = .ok [] := by
  have hp : pearson [(1 : ℚ), 1] [(1 : ℚ), 1] = none := by
    unfold pearson
    rw [if_pos (Or.inl varSum_pair_one)]
  have hscore : combinedScore ⟨120, [1, 1], [1, 1]⟩ ⟨120, [1, 1], [1, 1]⟩
      = some 0.3 := by
    rw [combinedScore_eq _ _ (by norm_num)]
    show some ((tempoScore 120 120 : ℝ) * 0.3
      + clampCorr (pearson [(1 : ℚ), 1] [(1 : ℚ), 1]) * 0.5
      + clampCorr (pearson [(1 : ℚ), 1] [(1 : ℚ), 1]) * 0.2) = some 0.3
    rw [hp, tempoScore_self 120 (by norm_num)]
    show some ((((1 : ℚ)) : ℝ) * 0.3 + 0 * 0.5 + 0 * 0.2) = some 0.3
    norm_num
  have hloop : refLoop ⟨120, [1, 1], [1, 1]⟩
      [("a", ⟨120, [1, 1], [1, 1]⟩)] none 0 = .ok (none, 0) := by
    show (match combinedScore ⟨120, [1, 1], [1, 1]⟩ ⟨120, [1, 1], [1, 1]⟩ with
      | none => Except.error ()
      | some s =>
        if (0 : ℝ) < s ∧ (0.6 : ℝ) < s then
          refLoop ⟨120, [1, 1], [1, 1]⟩ [] (some "a") s
        else refLoop ⟨120, [1, 1], [1, 1]⟩ [] none 0) = _
    rw [hscore]
    show (if (0 : ℝ) < 0.3 ∧ (0.6 : ℝ) < 0.3 then
        refLoop ⟨120, [1, 1], [1, 1]⟩ [] (some "a") (0.3 : ℝ)
      else refLoop ⟨120, [1, 1], [1, 1]⟩ [] none 0) = Except.ok (none, 0)
    rw [if_neg (by norm_num)]
    rfl
  refine ⟨hscore, ?_, referenceMatch_ok_none _ _ 0 hloop⟩
  rw [hscore]
  intro h
  injection h with h
  norm_num at h

/-- C4 (amended): over the non-degenerate domain (positive tempo,
non-constant chroma and MFCC vectors) an identical query scores exactly
1.0, and the engine reports a match whose combined score is 1.0, carried
by an entry of the database that itself scores 1.0.  (With duplicate
best entries the first in iteration order is returned, per C3.) -/
theorem identical_signature_match (q : Signature) (db : List (String × Signature))
    (hq : 0 < q.tempo)
    (hvc : varSum q.chroma ≠ 0) (hvm : varSum q.mfcc ≠ 0)
    (hmem : ∃ nm, (nm, q) ∈ db)
    (hr : ∀ p ∈ db, 0 ≤ p.2.tempo)
    (hlc : ∀ p ∈ db, q.chroma.length = p.2.chroma.length)
    (hlm : ∀ p ∈ db, q.mfcc.length = p.2.mfcc.length)
    (hn : ∀ p ∈ db, p.1 ≠ "") :
    combinedScore q q = some 1 ∧
    ∃ d, referenceMatch q db = .ok [d] ∧ d.confidence = 1 ∧
      ∃ p, p ∈ db ∧ p.1 = d.title ∧ combinedScore q p.2 = some 1 := by
  have hself : combinedScore q q = some 1 := by
    rw [combinedScore_eq q q (by rw [max_self]; exact hq.ne')]
    rw [tempoScore_self q.tempo hq, pearson_self q.chroma hvc,
      pearson_self q.mfcc hvm]
    show some (((1 : ℚ) : ℝ) * 0.3 + max 0 1 * 0.5 + max 0 1 * 0.2) = some 1
    norm_num
  have hdef : ∀ p ∈ db, combinedScore q p.2 ≠ none := by
    intro p hp
    exact combinedScore_isSome q p.2 hq.le (hr p hp)
      (fun hc => absurd hc.1 hq.ne')
  have hle1 : ∀ p ∈ db, ∀ x, combinedScore q p.2 = some x → x ≤ 1 :=
    fun p hp x hx =>
      combinedScore_le_one q p.2 hq.le (hr p hp) (hlc p hp) (hlm p hp) x hx
  obtain ⟨nm, hnm⟩ := hmem
  obtain ⟨⟨j, hjlen⟩, hjget⟩ := List.get_of_mem hnm
  have hjq : combinedScore q (db.get ⟨j, hjlen⟩).2 = some 1 := by
    rw [hjget]
    exact hself
  obtain ⟨b, s, heq, hcases⟩ := refLoop_spec q db none 0 hdef
  rcases hcases with ⟨_, _, hall⟩ | ⟨i, hi, hb, hsc, h6, _, hfirst, hall⟩
  · rcases hall (nm, q) hnm 1 hself with h | h <;> norm_num at h
  · have hs1 : s = 1 := by
      have hup : s ≤ 1 :=
        hle1 (db.get ⟨i, hi⟩) (db.get_mem _ _) s hsc
      have hlow : 1 ≤ s := by
        rcases hall j hjlen 1 hjq with h | h
        · exact h
        · norm_num at h
      exact le_antisymm hup hlow
    subst hs1
    subst hb
    refine ⟨hself, _, referenceMatch_ok_some q db (db.get ⟨i, hi⟩).1 1 heq
      (hn _ (db.get_mem _ _)), rfl, db.get ⟨i, hi⟩, db.get_mem _ _, rfl, hsc⟩

/-- C4 witness: singleton database with a non-degenerate signature. -/
theorem identical_signature_match_witness :
    combinedScore ⟨120, [0, 1], [0, 1]⟩ ⟨120, [0, 1], [0, 1]⟩ = some 1 ∧
    ∃ d, referenceMatch ⟨120, [0, 1], [0, 1]⟩
        [("song", ⟨120, [0, 1], [0, 1]⟩)] = .ok [d] ∧ d.confidence = 1 ∧
      ∃ p, p ∈ [("song", (⟨120, [0, 1], [0, 1]⟩ : Signature))] ∧
        p.1 = d.title ∧ combinedScore ⟨120, [0, 1], [0, 1]⟩ p.2 = some 1 :=
  identical_signature_match ⟨120, [0, 1], [0, 1]⟩
    [("song", ⟨120, [0, 1], [0, 1]⟩)]
    (by norm_num)
    (by norm_num [varSum, dev, qmean, Finset.sum_range_succ])
    (by norm_num [varSum, dev, qmean, Finset.sum_range_succ])
    ⟨"song", List.mem_singleton.mpr rfl⟩
    (by intro p hp; rw [List.mem_singleton] at hp; subst hp; norm_num)
    (by intro p hp; rw [List.mem_singleton] at hp; subst hp; rfl)
    (by intro p hp; rw [List.mem_singleton] at hp; subst hp; rfl)
    (by intro p hp; rw [List.mem_singleton] at hp; subst hp; simp)

/-! ## Claim C5: numerical degeneracies in similarity scoring -/

theorem varSum_replicate (v : ℚ) (n : ℕ) : varSum (List.replicate n v) = 0 := by
  cases n with
  | zero => simp [varSum]
  | succ m =>
    have hne : ((m + 1 : ℕ) : ℚ) ≠ 0 := by
      exact_mod_cast Nat.succ_ne_zero m
    have hmean : qmean (List.replicate (m + 1) v) = v := by
      unfold qmean
      rw [List.sum_replicate, List.length_replicate, nsmul_eq_mul]
      exact mul_div_cancel_left₀ v hne
    unfold varSum
    apply Finset.sum_eq_zero
    intro i hiF
    have hi : i < (List.replicate (m + 1) v).length := by
      rw [List.length_replicate]
      rw [List.length_replicate] at hiF
      exact Finset.mem_range.mp hiF
    unfold dev
    rw [List.getD_eq_getElem _ _ hi, List.getElem_replicate, hmean]
    simp

/-- C5 counterexample: when both compared tempos are zero the tempo
sub-score divides by zero; the scoring step raises instead of clamping,
and the whole reference scan aborts with the exception. -/
theorem score_divzero_failure :
    combinedScore ⟨0, [0, 1], [0, 1]⟩ ⟨0, [0, 1], [0, 1]⟩ = none ∧
    referenceMatch ⟨0, [0, 1], [0, 1]⟩
      [("ref", ⟨0, [0, 1], [0, 1]⟩)] = .error () := by
  have hnone : combinedScore ⟨0, [0, 1], [0, 1]⟩ ⟨0, [0, 1], [0, 1]⟩ = none := by
    simp [combinedScore]
  have hloop : refLoop ⟨0, [0, 1], [0, 1]⟩
      [("ref", ⟨0, [0, 1], [0, 1]⟩)] none 0 = .error () := by
    show (match combinedScore ⟨0, [0, 1], [0, 1]⟩ ⟨0, [0, 1], [0, 1]⟩ with
      | none => Except.error ()
      | some s =>
        if (0 : ℝ) < s ∧ (0.6 : ℝ) < s then
          refLoop ⟨0, [0, 1], [0, 1]⟩ [] (some "ref") s
        else refLoop ⟨0, [0, 1], [0, 1]⟩ [] none 0) = _
    rw [hnone]
  refine ⟨hnone, ?_⟩
  unfold referenceMatch
  rw [hloop]

/-- C5 (amended): a NaN Pearson correlation — which arises exactly from a
constant (zero-variance) chroma or timbre vector — is clamped to the
defined sub-score 0 at the point of computation and no NaN reaches the
combined score; the tempo sub-score, however, is not guarded: the scoring
step fails (raises) precisely when both tempos are zero, and otherwise
the combined score is a defined real number. -/
theorem score_degeneracy_spec (q r : Signature) (hq : 0 ≤ q.tempo)
    (hr : 0 ≤ r.tempo) :
    (combinedScore q r = none ↔ (q.tempo = 0 ∧ r.tempo = 0)) ∧
    (varSum q.chroma = 0 ∨ varSum r.chroma = 0 →
      pearson q.chroma r.chroma = none ∧
      clampCorr (pearson q.chroma r.chroma) = 0) ∧
    (varSum q.mfcc = 0 ∨ varSum r.mfcc = 0 →
      pearson q.mfcc r.mfcc = none ∧
      clampCorr (pearson q.mfcc r.mfcc) = 0) ∧
    (∀ v : ℚ, ∀ n : ℕ, varSum (List.replicate n v) = 0) ∧
    (¬(q.tempo = 0 ∧ r.tempo = 0) →
      ∃ s, combinedScore q r = some s ∧
        s = (tempoScore q.tempo r.tempo : ℝ) * 0.3
          + clampCorr (pearson q.chroma r.chroma) * 0.5
          + clampCorr (pearson q.mfcc r.mfcc) * 0.2) := by
  refine ⟨combinedScore_none_iff q r hq hr, ?_, ?_, varSum_replicate, ?_⟩
  · intro h
    have hp : pearson q.chroma r.chroma = none := by
      unfold pearson
      rw [if_pos h]
    exact ⟨hp, by rw [hp]; rfl⟩
  · intro h
    have hp : pearson q.mfcc r.mfcc = none := by
      unfold pearson
      rw [if_pos h]
    exact ⟨hp, by rw [hp]; rfl⟩
  · intro h
    cases hc : combinedScore q r with
    | none => exact absurd ((combinedScore_none_iff q r hq hr).mp hc) h
    | some s => exact ⟨s, rfl, combinedScore_some_eq q r s hc⟩

/-- C5 witness at concrete nonnegative tempos. -/
theorem score_degeneracy_spec_witness :
    combinedScore ⟨120, [0, 1], [0, 1]⟩ ⟨0, [1, 1], [2, 3]⟩ = none ↔
      ((120 : ℚ) = 0 ∧ (0 : ℚ) = 0) :=
  (score_degeneracy_spec ⟨120, [0, 1], [0, 1]⟩ ⟨0, [1, 1], [2, 3]⟩
    (by norm_num) (by norm_num)).1

/-! ## Claim C2: strategy cascade order and short-circuit -/

set_option maxHeartbeats 3000000 in
/-- C2: the instrumented cascade computes the same result as
`_detect_song_segment`; strategies are invoked in strictly increasing
priority order; a successful Shazam call short-circuits everything after
it; a successful AcoustID call short-circuits reference matching and the
tempo fallback; the reference strategy is invoked only on a non-empty
reference database; and a successful reference match short-circuits the
tempo fallback. -/
theorem detect_pipeline_order (env : Env) :
    (detectWithTrace env).1 = detectSongSegment env ∧
    ((detectWithTrace env).2).Pairwise (fun a b => a.priority < b.priority) ∧
    (env.shazamAvailable = true →
      (shazamDetect env.shazamTrack).isEmpty = false →
      (detectWithTrace env).2 = [Strat.shazam]) ∧
    (Strat.acoustid ∈ (detectWithTrace env).2 →
      (acoustidDetect env.acoustidRows).isEmpty = false →
      Strat.reference ∉ (detectWithTrace env).2 ∧
        Strat.tempo ∉ (detectWithTrace env).2) ∧
    (Strat.reference ∈ (detectWithTrace env).2 → env.refSigs ≠ []) ∧
    (∀ dr, Strat.reference ∈ (detectWithTrace env).2 →
      referenceMatchFrom env.querySig env.refSigs = .ok dr →
      dr.isEmpty = false →
      Strat.tempo ∉ (detectWithTrace env).2) := by
  obtain ⟨sa, aa, la, st, ar, rs, qs, tf⟩ := env
  cases sa <;> cases aa <;> cases la <;>
    rcases st with _ | t <;>
    by_cases hrs : rs.isEmpty = true <;>
    by_cases hac : (acoustidDetect ar).isEmpty = true <;>
    rcases hm : referenceMatchFrom qs rs with e | (_ | ⟨x4, dr2⟩) <;>
    by_cases htd : (tempoDetect tf).isEmpty = true <;>
    simp_all [detectWithTrace, detectSongSegment, shazamDetect, Strat.priority]

/-- C2 witness: with Shazam available and returning a track, the trace is
exactly the Shazam strategy. -/
theorem detect_pipeline_order_witness :
    (detectWithTrace ⟨true, true, true, some ⟨some "T", some "A"⟩, [],
        [("song", ⟨120, [0, 1], [0, 1]⟩)], none, none⟩).1
      = detectSongSegment ⟨true, true, true, some ⟨some "T", some "A"⟩, [],
        [("song", ⟨120, [0, 1], [0, 1]⟩)], none, none⟩ ∧
    ((detectWithTrace ⟨true, true, true, some ⟨some "T", some "A"⟩, [],
        [("song", ⟨120, [0, 1], [0, 1]⟩)], none, none⟩).2).Pairwise
      (fun a b => a.priority < b.priority) ∧
    ((⟨true, true, true, some ⟨some "T", some "A"⟩, [],
        [("song", ⟨120, [0, 1], [0, 1]⟩)], none, none⟩ : Env).shazamAvailable = true →
      (shazamDetect (some ⟨some "T", some "A"⟩)).isEmpty = false →
      (detectWithTrace ⟨true, true, true, some ⟨some "T", some "A"⟩, [],
        [("song", ⟨120, [0, 1], [0, 1]⟩)], none, none⟩).2 = [Strat.shazam]) ∧
    (Strat.acoustid ∈ (detectWithTrace ⟨true, true, true, some ⟨some "T", some "A"⟩, [],
        [("song", ⟨120, [0, 1], [0, 1]⟩)], none, none⟩).2 →
      (acoustidDetect []).isEmpty = false →
      Strat.reference ∉ (detectWithTrace ⟨true, true, true, some ⟨some "T", some "A"⟩, [],
        [("song", ⟨120, [0, 1], [0, 1]⟩)], none, none⟩).2 ∧
        Strat.tempo ∉ (detectWithTrace ⟨true, true, true, some ⟨some "T", some "A"⟩, [],
          [("song", ⟨120, [0, 1], [0, 1]⟩)], none, none⟩).2) ∧
    (Strat.reference ∈ (detectWithTrace ⟨true, true, true, some ⟨some "T", some "A"⟩, [],
        [("song", ⟨120, [0, 1], [0, 1]⟩)], none, none⟩).2 →
      ([("song", (⟨120, [0, 1], [0, 1]⟩ : Signature))] :
        List (String × Signature)) ≠ []) ∧
    (∀ dr, Strat.reference ∈ (detectWithTrace ⟨true, true, true,
        some ⟨some "T", some "A"⟩, [],
        [("song", ⟨120, [0, 1], [0, 1]⟩)], none, none⟩).2 →
      referenceMatchFrom none [("song", ⟨120, [0, 1], [0, 1]⟩)] = .ok dr →
      dr.isEmpty = false →
      Strat.tempo ∉ (detectWithTrace ⟨true, true, true, some ⟨some "T", some "A"⟩, [],
        [("song", ⟨120, [0, 1], [0, 1]⟩)], none, none⟩).2) :=
  detect_pipeline_order ⟨true, true, true, some ⟨some "T", some "A"⟩, [],
    [("song", ⟨120, [0, 1], [0, 1]⟩)], none, none⟩

/-! ## Claim C1: one result per analyzed segment -/

theorem rowsFor_segment (file : String) (i : ℕ) (ts : String) (dur : ℕ)
    (ds : List Detection) : ∀ r ∈ rowsFor file i ts dur ds, r.segment = i + 1 := by
  intro r hr
  cases ds with
  | nil =>
    rw [show rowsFor file i ts dur [] =
      [{ file := file, segment := i + 1, startTime := ts, durationS := dur,
         song := "undetected", artist := "", confidence := 0,
         method := "none" }] from rfl, List.mem_singleton] at hr
    subst hr
    rfl
  | cons d ds2 =>
    rw [show rowsFor file i ts dur (d :: ds2) = (d :: ds2).map (fun d =>
      { file := file, segment := i + 1, startTime := ts, durationS := dur,
        song := d.title, artist := d.artist, confidence := d.confidence,
        method := d.method }) from rfl] at hr
    obtain ⟨d2, _, rfl⟩ := List.mem_map.mp hr
    rfl

theorem rowsFor_length_pos (file : String) (i : ℕ) (ts : String) (dur : ℕ)
    (ds : List Detection) : 1 ≤ (rowsFor file i ts dur ds).length := by
  cases ds <;> simp [rowsFor]

/-- Induction workhorse for `analyze_segments`: result-count lower bound,
segment-index bounds of every row, and the exact rows filtered out for
each analyzed segment. -/
theorem analyzeSegmentsAux_spec (file : String) :
    ∀ (segs : List Seg) (i0 : ℕ) (rows : List Row),
      analyzeSegmentsAux file segs i0 = .ok rows →
      ((segs.filter fun s => 30000 ≤ s.endMs - s.startMs).length ≤ rows.length) ∧
      (∀ r ∈ rows, i0 + 1 ≤ r.segment ∧ r.segment ≤ i0 + segs.length) ∧
      (∀ j, ∀ hj : j < segs.length,
        30000 ≤ (segs.get ⟨j, hj⟩).endMs - (segs.get ⟨j, hj⟩).startMs →
        ∀ ds, detectSongSegment (segs.get ⟨j, hj⟩).env = .ok ds →
        rows.filter (fun r => r.segment = i0 + j + 1)
          = rowsFor file (i0 + j) (segmentTimestamp (segs.get ⟨j, hj⟩).startMs)
              (((segs.get ⟨j, hj⟩).endMs - (segs.get ⟨j, hj⟩).startMs) / 1000) ds) := by
  intro segs
  induction segs with
  | nil =>
    intro i0 rows h
    have h2 : Except.ok (ε := Unit) ([] : List Row) = Except.ok rows := h
    injection h2 with h2
    subst h2
    refine ⟨by simp, by simp, ?_⟩
    intro j hj
    exact absurd hj (Nat.not_lt_zero j)
  | cons seg rest ih =>
    intro i0 rows h
    have hlen : (seg :: rest).length = rest.length + 1 := rfl
    by_cases hskip : seg.endMs - seg.startMs < 30000
    · have h2 : analyzeSegmentsAux file rest (i0 + 1) = .ok rows := by
        rw [← h]
        show analyzeSegmentsAux file rest (i0 + 1) =
          (if seg.endMs - seg.startMs < 30000 then analyzeSegmentsAux file rest (i0 + 1)
           else _)
        rw [if_pos hskip]
      obtain ⟨ihc, ihb, ihf⟩ := ih (i0 + 1) rows h2
      refine ⟨?_, ?_, ?_⟩
      · rw [List.filter_cons, if_neg (show ¬decide
          (30000 ≤ seg.endMs - seg.startMs) = true from by
            simp only [decide_eq_true_eq]; omega)]
        exact ihc
      · intro r hr
        have := ihb r hr
        constructor <;> omega
      · intro j hj
        cases j with
        | zero =>
          intro hbig
          have hbig2 : 30000 ≤ seg.endMs - seg.startMs := hbig
          exact absurd hbig2 (by omega)
        | succ j =>
          intro hbig ds hds
          have hj2 : j < rest.length := Nat.lt_of_succ_lt_succ hj
          have hthis := ihf j hj2 hbig ds hds
          have e1 : i0 + 1 + j = i0 + (j + 1) := by omega
          rw [e1] at hthis
          exact hthis
    · cases hds : detectSongSegment seg.env with
      | error e =>
        have h2 : Except.error (α := List Row) e = Except.ok rows := by
          rw [← h]
          show Except.error e =
            (if seg.endMs - seg.startMs < 30000 then analyzeSegmentsAux file rest (i0 + 1)
             else match detectSongSegment seg.env with
              | .error e => .error e
              | .ok ds =>
                match analyzeSegmentsAux file rest (i0 + 1) with
                | .error e => .error e
                | .ok rows2 =>
                  .ok (rowsFor file i0 (segmentTimestamp seg.startMs)
                        ((seg.endMs - seg.startMs) / 1000) ds ++ rows2))
          rw [if_neg hskip, hds]
        exact absurd h2 (by simp)
      | ok ds =>
        cases hrest : analyzeSegmentsAux file rest (i0 + 1) with
        | error e =>
          have h2 : Except.error (α := List Row) e = Except.ok rows := by
            rw [← h]
            show Except.error e =
              (if seg.endMs - seg.startMs < 30000 then analyzeSegmentsAux file rest (i0 + 1)
               else match detectSongSegment seg.env with
                | .error e => .error e
                | .ok ds =>
                  match analyzeSegmentsAux file rest (i0 + 1) with
                  | .error e => .error e
                  | .ok rows2 =>
                    .ok (rowsFor file i0 (segmentTimestamp seg.startMs)
                          ((seg.endMs - seg.startMs) / 1000) ds ++ rows2))
            rw [if_neg hskip, hds, hrest]
          exact absurd h2 (by simp)
        | ok rows2 =>
          have h2 : Except.ok (ε := Unit)
              (rowsFor file i0 (segmentTimestamp seg.startMs)
                ((seg.endMs - seg.startMs) / 1000) ds ++ rows2) = Except.ok rows := by
            rw [← h]
            show _ =
              (if seg.endMs - seg.startMs < 30000 then analyzeSegmentsAux file rest (i0 + 1)
               else match detectSongSegment seg.env with
                | .error e => .error e
                | .ok ds =>
                  match analyzeSegmentsAux file rest (i0 + 1) with
                  | .error e => .error e
                  | .ok rows2 =>
                    .ok (rowsFor file i0 (segmentTimestamp seg.startMs)
                          ((seg.endMs - seg.startMs) / 1000) ds ++ rows2))
            rw [if_neg hskip, hds, hrest]
          injection h2 with h2
          subst h2
          obtain ⟨ihc, ihb, ihf⟩ := ih (i0 + 1) rows2 hrest
          have hseg : ∀ r ∈ rowsFor file i0 (segmentTimestamp seg.startMs)
              ((seg.endMs - seg.startMs) / 1000) ds, r.segment = i0 + 1 :=
            rowsFor_segment _ _ _ _ _
          have hrlen := rowsFor_length_pos file i0 (segmentTimestamp seg.startMs)
            ((seg.endMs - seg.startMs) / 1000) ds
          refine ⟨?_, ?_, ?_⟩
          · rw [List.filter_cons, if_pos (show decide
              (30000 ≤ seg.endMs - seg.startMs) = true from by
                simp only [decide_eq_true_eq]; omega)]
            simp only [List.length_append, List.length_cons]
            omega
          · intro r hr
            rcases List.mem_append.mp hr with hr1 | hr2
            · have := hseg r hr1
              constructor <;> omega
            · have := ihb r hr2
              constructor <;> omega
          · intro j hj
            cases j with
            | zero =>
              intro _ ds2 hds2
              rw [show detectSongSegment ((seg :: rest).get ⟨0, hj⟩).env
                = detectSongSegment seg.env from rfl, hds] at hds2
              injection hds2 with hds2
              subst hds2
              rw [List.filter_append]
              have hfl : (rowsFor file i0 (segmentTimestamp seg.startMs)
                  ((seg.endMs - seg.startMs) / 1000) ds).filter
                    (fun r => r.segment = i0 + 0 + 1)
                  = rowsFor file i0 (segmentTimestamp seg.startMs)
                      ((seg.endMs - seg.startMs) / 1000) ds := by
                rw [List.filter_eq_self]
                intro r hr
                simp only [decide_eq_true_eq]
                rw [hseg r hr]
              have hfr : rows2.filter (fun r => r.segment = i0 + 0 + 1) = [] := by
                rw [List.filter_eq_nil_iff]
                intro r hr
                have := ihb r hr
                simp only [decide_eq_true_eq]
                omega
              rw [hfl, hfr, List.append_nil]
              rfl
            | succ j =>
              intro hbig ds2 hds2
              have hj2 : j < rest.length := Nat.lt_of_succ_lt_succ hj
              have hbig2 : 30000 ≤ (rest.get ⟨j, hj2⟩).endMs
                  - (rest.get ⟨j, hj2⟩).startMs := hbig
              have hds3 : detectSongSegment (rest.get ⟨j, hj2⟩).env = .ok ds2 := hds2
              rw [List.filter_append]
              have hfl : (rowsFor file i0 (segmentTimestamp seg.startMs)
                  ((seg.endMs - seg.startMs) / 1000) ds).filter
                    (fun r => r.segment = i0 + (j + 1) + 1) = [] := by
                rw [List.filter_eq_nil_iff]
                intro r hr
                have := hseg r hr
                simp only [decide_eq_true_eq]
                omega
              have hthis := ihf j hj2 hbig2 ds2 hds3
              have e1 : i0 + 1 + j = i0 + (j + 1) := by omega
              rw [e1] at hthis
              rw [hfl, List.nil_append]
              exact hthis

/-- C1: when `analyze_segments` completes, it emits at least one row per
analyzed segment (those of duration at least 30 s), and an analyzed
segment on which every strategy fails contributes exactly one row: the
`undetected` sentinel with confidence 0 and method `none`. -/
theorem analyze_segments_emits (file : String) (segs : List Seg) (rows : List Row)
    (h : analyzeSegments file segs = .ok rows) :
    (segs.filter fun s => 30000 ≤ s.endMs - s.startMs).length ≤ rows.length ∧
    ∀ j, ∀ hj : j < segs.length,
      30000 ≤ (segs.get ⟨j, hj⟩).endMs - (segs.get ⟨j, hj⟩).startMs →
      detectSongSegment (segs.get ⟨j, hj⟩).env = .ok [] →
      rows.filter (fun r => r.segment = j + 1)
        = [{ file := file, segment := j + 1,
             startTime := segmentTimestamp (segs.get ⟨j, hj⟩).startMs,
             durationS := ((segs.get ⟨j, hj⟩).endMs - (segs.get ⟨j, hj⟩).startMs) / 1000,
             song := "undetected", artist := "", confidence := 0,
             method := "none" }] := by
  obtain ⟨hc, _, hf⟩ := analyzeSegmentsAux_spec file segs 0 rows h
  refine ⟨hc, ?_⟩
  intro j hj hbig hdet
  have hthis := hf j hj hbig [] hdet
  rw [show (0 : ℕ) + j = j from by omega] at hthis
  exact hthis

/-- C1 witness: a single 30-second segment with no strategy available
yields exactly the sentinel row. -/
theorem analyze_segments_emits_witness :
    analyzeSegments "f" [⟨0, 30000, ⟨false, false, false, none, [], [], none, none⟩⟩]
      = .ok [{ file := "f", segment := 1, startTime := segmentTimestamp 0,
               durationS := 30, song := "undetected", artist := "",
               confidence := 0, method := "none" }] ∧
    (([⟨0, 30000, ⟨false, false, false, none, [], [], none, none⟩⟩] :
        List Seg).filter fun s => 30000 ≤ s.endMs - s.startMs).length
      ≤ ([{ file := "f", segment := 1, startTime := segmentTimestamp 0,
            durationS := 30, song := "undetected", artist := "",
            confidence := 0, method := "none" }] : List Row).length := by
  have hEval : analyzeSegments "f"
      [⟨0, 30000, ⟨false, false, false, none, [], [], none, none⟩⟩]
      = .ok [{ file := "f", segment := 1, startTime := segmentTimestamp 0,
               durationS := 30, song := "undetected", artist := "",
               confidence := 0, method := "none" }] := rfl
  exact ⟨hEval, (analyze_segments_emits "f" _ _ hEval).1⟩

/-! ## Claim C9: confidence values lie in the unit interval -/

theorem referenceMatch_conf (q : Signature) (db : List (String × Signature))
    (hq : 0 ≤ q.tempo)
    (hdb : ∀ p ∈ db, 0 ≤ p.2.tempo ∧ q.chroma.length = p.2.chroma.length ∧
      q.mfcc.length = p.2.mfcc.length)
    (res : List Detection) (h : referenceMatch q db = .ok res) :
    ∀ d ∈ res, 0 ≤ d.confidence ∧ d.confidence ≤ 1 := by
  intro d hd
  have hle : ∀ p ∈ db, ∀ x, combinedScore q p.2 = some x → x ≤ 1 :=
    fun p hp x hx =>
      combinedScore_le_one q p.2 hq (hdb p hp).1 (hdb p hp).2.1 (hdb p hp).2.2 x hx
  cases hl : refLoop q db none 0 with
  | error e =>
    have herr : referenceMatch q db = .error e := by
      unfold referenceMatch
      rw [hl]
    rw [herr] at h
    exact absurd h (by simp)
  | ok bs =>
    obtain ⟨b, s⟩ := bs
    have hbounds := refLoop_ok_bounds q db none 0 b s hl (le_refl 0) zero_le_one hle
    cases b with
    | none =>
      rw [referenceMatch_ok_none q db s hl] at h
      injection h with h
      subst h
      simp at hd
    | some name =>
      by_cases hname : name = ""
      · have hempty : referenceMatch q db = .ok [] := by
          unfold referenceMatch
          rw [hl]
          show (if name = "" then Except.ok []
            else Except.ok [({ title := name, artist := "Cover",
                               confidence := s, method := "reference_match" } :
                             Detection)]) = _
          rw [if_pos hname]
        rw [hempty] at h
        injection h with h
        subst h
        simp at hd
      · rw [referenceMatch_ok_some q db name s hl hname] at h
        injection h with h
        subst h
        rw [List.mem_singleton] at hd
        subst hd
        exact hbounds

set_option maxHeartbeats 3000000 in
/-- Every detection in a pipeline result comes from one of the four
strategies. -/
theorem detect_result_sources (env : Env) :
    ∀ res, detectSongSegment env = .ok res →
      ∀ d ∈ res, d ∈ shazamDetect env.shazamTrack ∨
        d ∈ acoustidDetect env.acoustidRows ∨
        (∃ dr, referenceMatchFrom env.querySig env.refSigs = .ok dr ∧ d ∈ dr) ∨
        d ∈ tempoDetect env.tempoFeatures := by
  obtain ⟨sa, aa, la, st, ar, rs, qs, tf⟩ := env
  cases sa <;> cases aa <;> cases la <;>
    rcases st with _ | t <;>
    by_cases hrs : rs.isEmpty = true <;>
    by_cases hac : (acoustidDetect ar).isEmpty = true <;>
    rcases hm : referenceMatchFrom qs rs with e | (_ | ⟨x4, dr2⟩) <;>
    by_cases htd : (tempoDetect tf).isEmpty = true <;>
    intro res h d hd <;>
    simp_all [detectSongSegment, shazamDetect] <;>
    tauto

theorem detect_conf (env : Env) (henv : envOk env) (res : List Detection)
    (h : detectSongSegment env = .ok res) :
    ∀ d ∈ res, 0 ≤ d.confidence ∧ d.confidence ≤ 1 := by
  intro d hd
  obtain ⟨hac, hqs⟩ := henv
  rcases detect_result_sources env res h d hd with hs | ha | ⟨dr, hdr, hmem⟩ | ht
  · cases hst : env.shazamTrack with
    | none =>
      rw [hst] at hs
      simp [shazamDetect] at hs
    | some t =>
      rw [hst] at hs
      rw [show shazamDetect (some t) =
        [{ title := t.title.getD "Unknown", artist := t.subtitle.getD "Unknown",
           confidence := 0.9, method := "shazam" }] from rfl,
        List.mem_singleton] at hs
      subst hs
      constructor <;> norm_num
  · unfold acoustidDetect at ha
    obtain ⟨row, hrow, rfl⟩ := List.mem_map.mp ha
    have hrow2 := List.mem_filter.mp hrow
    have hb := hac row hrow2.1
    constructor
    · show (0 : ℝ) ≤ (row.score : ℝ)
      exact_mod_cast hb.1
    · show (row.score : ℝ) ≤ 1
      exact_mod_cast hb.2
  · cases hq : env.querySig with
    | none =>
      rw [hq] at hdr
      have hdr2 : Except.ok (ε := Unit) ([] : List Detection) = .ok dr := hdr
      injection hdr2 with hdr2
      subst hdr2
      simp at hmem
    | some qsig =>
      rw [hq] at hdr
      have hdr2 : referenceMatch qsig env.refSigs = .ok dr := hdr
      obtain ⟨h0, hall⟩ := hqs qsig hq
      exact referenceMatch_conf qsig env.refSigs h0
        (fun p hp => ⟨(hall p hp).1, (hall p hp).2.1.symm, (hall p hp).2.2.symm⟩)
        dr hdr2 d hmem
  · cases htf : env.tempoFeatures with
    | none =>
      rw [htf] at ht
      simp [tempoDetect] at ht
    | some f =>
      rw [htf] at ht
      have hcore : d ∈ tempoDetectCore f := ht
      unfold tempoDetectCore at hcore
      by_cases hrange : 60 ≤ f.tempoVal ∧ f.tempoVal ≤ 180
      · rw [if_pos hrange, List.mem_singleton] at hcore
        subst hcore
        constructor
        · show (0 : ℝ) ≤ ((min 0.7 (f.tempoVal / 120) : ℚ) : ℝ)
          have hmin : (0 : ℚ) ≤ min 0.7 (f.tempoVal / 120) :=
            le_min (by norm_num) (by have := hrange.1; linarith)
          exact_mod_cast hmin
        · show ((min 0.7 (f.tempoVal / 120) : ℚ) : ℝ) ≤ 1
          have hmin : (min (0.7 : ℚ) (f.tempoVal / 120)) ≤ 1 :=
            le_trans (min_le_left _ _) (by norm_num)
          exact_mod_cast hmin
      · rw [if_neg hrange] at hcore
        simp at hcore

theorem rowsFor_conf (file : String) (i : ℕ) (ts : String) (dur : ℕ)
    (ds : List Detection)
    (hds : ∀ d ∈ ds, 0 ≤ d.confidence ∧ d.confidence ≤ 1) :
    ∀ r ∈ rowsFor file i ts dur ds, 0 ≤ r.confidence ∧ r.confidence ≤ 1 := by
  intro r hr
  cases ds with
  | nil =>
    rw [show rowsFor file i ts dur [] =
      [{ file := file, segment := i + 1, startTime := ts, durationS := dur,
         song := "undetected", artist := "", confidence := 0,
         method := "none" }] from rfl, List.mem_singleton] at hr
    subst hr
    constructor <;> norm_num
  | cons d ds2 =>
    rw [show rowsFor file i ts dur (d :: ds2) = (d :: ds2).map (fun d =>
      { file := file, segment := i + 1, startTime := ts, durationS := dur,
        song := d.title, artist := d.artist, confidence := d.confidence,
        method := d.method }) from rfl] at hr
    obtain ⟨d2, hd2, rfl⟩ := List.mem_map.mp hr
    exact hds d2 hd2

theorem analyzeSegmentsAux_conf (file : String) :
    ∀ (segs : List Seg) (i0 : ℕ) (rows : List Row),
      analyzeSegmentsAux file segs i0 = .ok rows →
      (∀ s ∈ segs, envOk s.env) →
      ∀ r ∈ rows, 0 ≤ r.confidence ∧ r.confidence ≤ 1 := by
  intro segs
  induction segs with
  | nil =>
    intro i0 rows h _ r hr
    have h2 : Except.ok (ε := Unit) ([] : List Row) = Except.ok rows := h
    injection h2 with h2
    subst h2
    simp at hr
  | cons seg rest ih =>
    intro i0 rows h henv r hr
    have henvr : ∀ s ∈ rest, envOk s.env :=
      fun s hs => henv s (List.mem_cons_of_mem _ hs)
    by_cases hskip : seg.endMs - seg.startMs < 30000
    · have h2 : analyzeSegmentsAux file rest (i0 + 1) = .ok rows := by
        rw [← h]
        show analyzeSegmentsAux file rest (i0 + 1) =
          (if seg.endMs - seg.startMs < 30000 then analyzeSegmentsAux file rest (i0 + 1)
           else _)
        rw [if_pos hskip]
      exact ih (i0 + 1) rows h2 henvr r hr
    · cases hds : detectSongSegment seg.env with
      | error e =>
        have h2 : Except.error (α := List Row) e = Except.ok rows := by
          rw [← h]
          show Except.error e =
            (if seg.endMs - seg.startMs < 30000 then analyzeSegmentsAux file rest (i0 + 1)
             else match detectSongSegment seg.env with
              | .error e => .error e
              | .ok ds =>
                match analyzeSegmentsAux file rest (i0 + 1) with
                | .error e => .error e
                | .ok rows2 =>
                  .ok (rowsFor file i0 (segmentTimestamp seg.startMs)
                        ((seg.endMs - seg.startMs) / 1000) ds ++ rows2))
          rw [if_neg hskip, hds]
        exact absurd h2 (by simp)
      | ok ds =>
        cases hrest : analyzeSegmentsAux file rest (i0 + 1) with
        | error e =>
          have h2 : Except.error (α := List Row) e = Except.ok rows := by
            rw [← h]
            show Except.error e =
              (if seg.endMs - seg.startMs < 30000 then analyzeSegmentsAux file rest (i0 + 1)
               else match detectSongSegment seg.env with
                | .error e => .error e
                | .ok ds =>
                  match analyzeSegmentsAux file rest (i0 + 1) with
                  | .error e => .error e
                  | .ok rows2 =>
                    .ok (rowsFor file i0 (segmentTimestamp seg.startMs)
                          ((seg.endMs - seg.startMs) / 1000) ds ++ rows2))
            rw [if_neg hskip, hds, hrest]
          exact absurd h2 (by simp)
        | ok rows2 =>
          have h2 : Except.ok (ε := Unit)
              (rowsFor file i0 (segmentTimestamp seg.startMs)
                ((seg.endMs - seg.startMs) / 1000) ds ++ rows2) = Except.ok rows := by
            rw [← h]
            show _ =
              (if seg.endMs - seg.startMs < 30000 then analyzeSegmentsAux file rest (i0 + 1)
               else match detectSongSegment seg.env with
                | .error e => .error e
                | .ok ds =>
                  match analyzeSegmentsAux file rest (i0 + 1) with
                  | .error e => .error e
                  | .ok rows2 =>
                    .ok (rowsFor file i0 (segmentTimestamp seg.startMs)
                          ((seg.endMs - seg.startMs) / 1000) ds ++ rows2))
            rw [if_neg hskip, hds, hrest]
          injection h2 with h2
          subst h2
          rcases List.mem_append.mp hr with hr1 | hr2
          · exact rowsFor_conf _ _ _ _ ds
              (detect_conf seg.env (henv seg (List.mem_cons_self _ _)) ds hds)
              r hr1
          · exact ih (i0 + 1) rows2 hrest henvr r hr2

/-- C9: every emitted confidence lies in `[0, 1]`: Shazam detections
carry exactly 0.9; tempo-heuristic detections carry a value in
`[0, 0.7]`; the `undetected` sentinel row carries 0; reference matches
carry their combined score, which lies in `[0, 1]` over the reachable
signature domain; and every row emitted by `analyze_segments` over
reachable environments has confidence in `[0, 1]`. -/
theorem detection_confidence_unit :
    (∀ t, ∀ d ∈ shazamDetect t, d.confidence = 0.9) ∧
    (∀ tf, ∀ d ∈ tempoDetect tf, 0 ≤ d.confidence ∧ d.confidence ≤ 0.7) ∧
    (∀ file i ts dur, ∀ r ∈ rowsFor file i ts dur ([] : List Detection),
      r.confidence = 0 ∧ r.song = "undetected" ∧ r.method = "none") ∧
    (∀ q db, 0 ≤ q.tempo →
      (∀ p ∈ db, 0 ≤ p.2.tempo ∧ q.chroma.length = p.2.chroma.length ∧
        q.mfcc.length = p.2.mfcc.length) →
      ∀ res, referenceMatch q db = .ok res →
        ∀ d ∈ res, 0 ≤ d.confidence ∧ d.confidence ≤ 1) ∧
    (∀ file segs rows, analyzeSegments file segs = .ok rows →
      (∀ s ∈ segs, envOk s.env) →
      ∀ r ∈ rows, 0 ≤ r.confidence ∧ r.confidence ≤ 1) := by
  refine ⟨?_, ?_, ?_, ?_, ?_⟩
  · intro t d hd
    cases t with
    | none => simp [shazamDetect] at hd
    | some tr =>
      rw [show shazamDetect (some tr) =
        [{ title := tr.title.getD "Unknown", artist := tr.subtitle.getD "Unknown",
           confidence := 0.9, method := "shazam" }] from rfl,
        List.mem_singleton] at hd
      subst hd
      rfl
  · intro tf d hd
    cases tf with
    | none => simp [tempoDetect] at hd
    | some f =>
      have hcore : d ∈ tempoDetectCore f := hd
      unfold tempoDetectCore at hcore
      by_cases hrange : 60 ≤ f.tempoVal ∧ f.tempoVal ≤ 180
      · rw [if_pos hrange, List.mem_singleton] at hcore
        subst hcore
        constructor
        · show (0 : ℝ) ≤ ((min 0.7 (f.tempoVal / 120) : ℚ) : ℝ)
          have hmin : (0 : ℚ) ≤ min 0.7 (f.tempoVal / 120) :=
            le_min (by norm_num) (by have := hrange.1; linarith)
          exact_mod_cast hmin
        · show ((min 0.7 (f.tempoVal / 120) : ℚ) : ℝ) ≤ 0.7
          have hmin : (min (0.7 : ℚ) (f.tempoVal / 120)) ≤ 0.7 := min_le_left _ _
          have hcast : ((min 0.7 (f.tempoVal / 120) : ℚ) : ℝ) ≤ ((0.7 : ℚ) : ℝ) := by
            exact_mod_cast hmin
          simpa using hcast
      · rw [if_neg hrange] at hcore
        simp at hcore
  · intro file i ts dur r hr
    rw [show rowsFor file i ts dur [] =
      [{ file := file, segment := i + 1, startTime := ts, durationS := dur,
         song := "undetected", artist := "", confidence := 0,
         method := "none" }] from rfl, List.mem_singleton] at hr
    subst hr
    exact ⟨rfl, rfl, rfl⟩
  · intro q db hq hdb res h
    exact referenceMatch_conf q db hq hdb res h
  · intro file segs rows h henv
    exact analyzeSegmentsAux_conf file segs 0 rows h henv

/-- C9 witness: the Shazam strategy on a concrete parsed track. -/
theorem detection_confidence_unit_witness :
    ∀ d ∈ shazamDetect (some ⟨some "T", some "A"⟩), d.confidence = 0.9 :=
  detection_confidence_unit.1 (some ⟨some "T", some "A"⟩)

end RehearsalProc
